import Mathlib

/-!
# Verification of the plytorch PLY codec (src/main.cpp)

Shallow embedding of the PLY reader/writer pair from `src/main.cpp`:

* the dtype registry (`ply_to_torch_dtype`, `torch_dtype_to_ply`,
  `torch_dtype_to_size` and the three lookup wrappers),
* the generic reader `read_ply` / `read_ply_element`,
* the generic writer `write_ply`,
* the dense-float codec `read_float_ply` / `write_float_ply`.

Files are modelled at the level the codec manipulates them: a header as a
list of token lines (each `<<`-built header line becomes its list of
space-separated tokens) plus a flat payload byte list (bytes as `Nat < 256`).

The header tokenizer/extraction collaborator (miniply, `#include "miniply.h"`,
not part of this repository's sources) is modelled from the spec, which fixes
its interface: per element, a name, a row count and ordered property
declarations, per-row list lengths for list properties, and byte extraction
of scalar and list property payloads.

`std::unordered_map` (the source's `PropertiesType` / `ElementsType`) keeps
no insertion order; its iteration order is implementation-defined (it may
depend on the hash machinery and on the insertion and rehash history) and is
in particular not guaranteed to be insertion order.  We model it as an
association list kept strictly sorted by key: lookup is by key, a repeated
insert overwrites, and iteration follows one fixed canonical order.  The
canonical order is a modelling choice standing in for the container's
unspecified one; no theorem below other than the concrete C3 layout depends
on which order it is, and none asserts the real container shares it.
-/

/-- miniply's `PLYPropertyType` enumeration (`None` is the sentinel used for
`countType` on non-list properties). -/
inductive PLYPropertyType where
  | Char | UChar | Short | UShort | Int | UInt | Float | Double | None
deriving DecidableEq, Repr

/-- The torch scalar types the codec can meet.  The first eight are the ones
in the write-direction tables; `kByte` and `kUInt8` are the same torch type,
as are `kInt16`/`kShort` etc.  `Int64`, `Half` and `Bool'` stand for the
torch dtypes outside the eight-entry registry. -/
inductive TorchScalarType where
  | UInt8 | Int8 | UInt16 | Int16 | UInt32 | Int32 | Float32 | Float64
  | Int64 | Half | Bool'
deriving DecidableEq, Repr

/-- Torch device model: the codec only distinguishes CPU from everything else. -/
inductive Device where
  | cpu | cuda
deriving DecidableEq, Repr

/-- `toString` for torch scalar types, as used in the error messages of
`get_ply_dtype` / `get_torch_dtype_size`. -/
def torchDtypeName : TorchScalarType → String
  | .UInt8 => "Byte" | .Int8 => "Char" | .UInt16 => "UInt16" | .Int16 => "Short"
  | .UInt32 => "UInt32" | .Int32 => "Int" | .Float32 => "Float" | .Float64 => "Double"
  | .Int64 => "Long" | .Half => "Half" | .Bool' => "Bool"

/-- The read-direction registry `ply_to_torch_dtype` (src/main.cpp:19-28):
an eight-entry map; `Char` and `UChar` both map to `torch::kByte`.
A key absent from the map is `none`. -/
def ply_to_torch_dtype : PLYPropertyType → Option TorchScalarType
  | .Char => some .UInt8
  | .UChar => some .UInt8
  | .Short => some .Int16
  | .UShort => some .UInt16
  | .Int => some .Int32
  | .UInt => some .UInt32
  | .Float => some .Float32
  | .Double => some .Float64
  | .None => none

/-- The write-direction registry `torch_dtype_to_ply` (src/main.cpp:30-39). -/
def torch_dtype_to_ply : TorchScalarType → Option String
  | .UInt8 => some "uchar"
  | .Int8 => some "char"
  | .UInt16 => some "ushort"
  | .Int16 => some "short"
  | .UInt32 => some "uint"
  | .Int32 => some "int"
  | .Float32 => some "float"
  | .Float64 => some "double"
  | _ => none

/-- The byte-width registry `torch_dtype_to_size` (src/main.cpp:41-50). -/
def torch_dtype_to_size : TorchScalarType → Option Nat
  | .UInt8 => some 1
  | .Int8 => some 1
  | .UInt16 => some 2
  | .Int16 => some 2
  | .UInt32 => some 4
  | .Int32 => some 4
  | .Float32 => some 4
  | .Float64 => some 8
  | _ => none

/-- `get_torch_dtype` (src/main.cpp:53-60): registry lookup, throwing
`"unknown PLYProperty dtype"` when the format type is not in the map. -/
def get_torch_dtype (t : PLYPropertyType) : Except String TorchScalarType :=
  match ply_to_torch_dtype t with
  | some r => .ok r
  | none => .error "unknown PLYProperty dtype"

/-- `get_ply_dtype` (src/main.cpp:62-69). -/
def get_ply_dtype (t : TorchScalarType) : Except String String :=
  match torch_dtype_to_ply t with
  | some r => .ok r
  | none => .error ("cannot convert torch dtype '" ++ torchDtypeName t ++ "' into PLY type")

/-- `get_torch_dtype_size` (src/main.cpp:71-78). -/
def get_torch_dtype_size (t : TorchScalarType) : Except String Nat :=
  match torch_dtype_to_size t with
  | some r => .ok r
  | none => .error ("cannot convert torch dtype '" ++ torchDtypeName t ++ "' into PLY type")

/-- A torch tensor, reduced to what the codec observes: dtype, shape,
device and the raw data bytes behind `data_ptr()` (each entry one byte). -/
structure Tensor where
  dtype : TorchScalarType
  shape : List Nat
  device : Device
  bytes : List Nat
deriving DecidableEq, Repr

/-- `Tensor::ndimension()`. -/
def Tensor.ndim (t : Tensor) : Nat := t.shape.length

/-- `Tensor::size(0)` (0 when the shape is empty, where the C++ call would
be out of range). -/
def Tensor.size0 (t : Tensor) : Nat := t.shape.headD 0

/-- `Tensor::size(1)` (0 when absent). -/
def Tensor.size1 (t : Tensor) : Nat := (t.shape.drop 1).headD 0

/-- The predicate `write_ply` applies to decide whether a column is written
as a list property: `(data.ndimension() > 1) && (data.size(1) > 1)`
(src/main.cpp:166 and 188). -/
def Tensor.isListCol (t : Tensor) : Bool :=
  decide (1 < t.ndim) && decide (1 < t.size1)

/-! ## The unordered-map model

`PropertiesType` / `ElementsType` (src/main.cpp:15-16) are
`std::unordered_map`s.  The container does not remember insertion order; its
iteration order is an implementation detail of the hash table and may depend
on the insertion and rehash history.  The model fixes one canonical order —
an association list kept strictly sorted by a fixed total order on keys —
so that iteration is deterministic: lookup is by key and insertion of an
existing key overwrites, as in the real container, while the canonical
iteration order merely stands in for the container's unspecified one. -/

/-- Byte-wise strict order on strings (the canonical key order of the model). -/
def strLtChars : List Char → List Char → Bool
  | [], [] => false
  | [], _ :: _ => true
  | _ :: _, [] => false
  | a :: as, b :: bs =>
    decide (a.toNat < b.toNat) || (decide (a = b) && strLtChars as bs)

/-- Strict key order on strings. -/
def strLt (a b : String) : Bool := strLtChars a.data b.data

/-- The unordered-map model: an association list, canonically sorted. -/
abbrev UMap (α : Type) : Type := List (String × α)

/-- `operator[]`-style lookup. -/
def umapFind {α : Type} (m : UMap α) (k : String) : Option α :=
  match m with
  | [] => none
  | (k', v) :: rest => if k = k' then some v else umapFind rest k

/-- `m[k] = v`: insert keeping the canonical order, overwriting an equal key. -/
def umapInsert {α : Type} (m : UMap α) (k : String) (v : α) : UMap α :=
  match m with
  | [] => [(k, v)]
  | (k', v') :: rest =>
    if strLt k k' then (k, v) :: (k', v') :: rest
    else if k = k' then (k, v) :: rest
    else (k', v') :: umapInsert rest k v

/-- Iteration order of the model: the list itself.  Keys in that order. -/
def umapKeys {α : Type} (m : UMap α) : List String := m.map Prod.fst

/-- The source's `PropertiesType`: one element's columns. -/
abbrev PropertiesType : Type := UMap Tensor

/-- The source's `ElementsType`: the whole document. -/
abbrev ElementsType : Type := UMap PropertiesType

/-! ## Decimal tokens

The writers print row counts with `operator<<(std::ostream&, integer)`,
i.e. decimal; the header parser reads them back. -/

/-- Equality test on `Except` results. -/
instance exceptDecEq {ε α : Type} [DecidableEq ε] [DecidableEq α] :
    DecidableEq (Except ε α) := fun a b =>
  match a, b with
  | .ok x, .ok y =>
    if h : x = y then isTrue (congrArg Except.ok h)
    else isFalse (fun hc => h (Except.ok.inj hc))
  | .error x, .error y =>
    if h : x = y then isTrue (congrArg Except.error h)
    else isFalse (fun hc => h (Except.error.inj hc))
  | .ok _, .error _ => isFalse (fun hc => Except.noConfusion hc)
  | .error _, .ok _ => isFalse (fun hc => Except.noConfusion hc)

/-- Little-endian decimal digits, fuel-driven (structural, so that concrete
values compute inside the kernel). -/
def natDigitsF : Nat → Nat → List Nat
  | 0, _ => []
  | _+1, 0 => []
  | fuel+1, n+1 => ((n+1) % 10) :: natDigitsF fuel ((n+1) / 10)

/-- Little-endian decimal digits of `n` (empty for 0). -/
def natToRevDigits (n : Nat) : List Nat := natDigitsF n n

/-- The character of one decimal digit. -/
def digitChar (d : Nat) : Char := Char.ofNat (48 + d)

/-- Decimal rendering of a natural number, as `operator<<` prints it. -/
def natToken (n : Nat) : String :=
  match n with
  | 0 => "0"
  | _ => String.mk ((natToRevDigits n).reverse.map digitChar)

/-- Numeric value of a decimal digit character. -/
def digitVal (c : Char) : Option Nat :=
  if 48 ≤ c.toNat ∧ c.toNat ≤ 57 then some (c.toNat - 48) else none

/-- Accumulating decimal parse. -/
def parseNatGo : List Char → Nat → Option Nat
  | [], acc => some acc
  | c :: cs, acc =>
    match digitVal c with
    | some d => parseNatGo cs (10 * acc + d)
    | none => none

/-- Decimal parse of a token (at least one digit). -/
def parseNatToken (s : String) : Option Nat :=
  match s.data with
  | [] => none
  | cs => parseNatGo cs 0

/-! ## The file model

A written file is its header — one entry per `\n`-terminated header line,
each line kept as its list of space-separated tokens — followed by the
payload bytes.  `lineBytes`/`fileBytes` recover the raw byte stream. -/

/-- A PLY file: tokenized header lines plus payload bytes. -/
structure PLYFile where
  headerLines : List (List String)
  payload : List Nat
deriving DecidableEq, Repr

/-- A header line as it appears in the file (tokens joined by single spaces). -/
def renderLine (l : List String) : String := String.intercalate " " l

/-- The bytes of one header line, including its terminating newline. -/
def lineBytes (l : List String) : List Nat :=
  (renderLine l).data.map Char.toNat ++ [10]

/-- The raw bytes of the whole file. -/
def fileBytes (f : PLYFile) : List Nat :=
  (f.headerLines.map lineBytes).flatten ++ f.payload

/-! ## The generic writer `write_ply` (src/main.cpp:153-212) -/

/-- The format header line (src/main.cpp:157-161): the host's native byte
order, probed at write time by `is_big_endian()`; the probe result is the
`bigEndian` parameter of the model. -/
def formatLine (bigEndian : Bool) : List String :=
  if bigEndian then ["format", "binary_big_endian", "1.0"]
  else ["format", "binary_little_endian", "1.0"]

/-- The row count `write_ply` uses for an element:
`element.begin()->second.size(0)` (src/main.cpp:164,182).  Dereferencing
`begin()` of an empty map is undefined behavior in the source; the model
returns 0 there. -/
def elementRows (props : PropertiesType) : Nat :=
  match props with
  | [] => 0
  | p :: _ => p.2.size0

/-- One `property …` header line (src/main.cpp:166-171). -/
def propHeaderLine (pname : String) (t : Tensor) : Except String (List String) := do
  let fmt ← get_ply_dtype t.dtype
  if t.isListCol then pure ["property", "list", "uchar", fmt, pname]
  else pure ["property", fmt, pname]

/-- The header block of one element (src/main.cpp:163-173). -/
def elementHeaderLines (ename : String) (props : PropertiesType) :
    Except String (List (List String)) := do
  let propLines ← props.mapM (fun p => propHeaderLine p.1 p.2)
  pure (["element", ename, natToken (elementRows props)] :: propLines)

/-- One payload column as `write_ply` tracks it: the source cursor
(`src_ptrs[i]`), the element byte width (`strides[i]`), the list flag
(`is_list[i]`) and the count byte (`list_sizes[i]`, a `char`, so the stored
value is `size(1) mod 256`; the source never checks the 0-255 domain). -/
structure WCol where
  bytes : List Nat
  stride : Nat
  isList : Bool
  listSize : Nat
deriving DecidableEq, Repr

/-- Column bookkeeping for one tensor (src/main.cpp:184-193). -/
def mkWCol (t : Tensor) : Except String WCol := do
  let s ← get_torch_dtype_size t.dtype
  pure ⟨t.bytes, s, t.isListCol, t.size1 % 256⟩

/-- One pass of the inner property loop for a single row
(src/main.cpp:196-206): emit the row's bytes for every column and advance
every column's cursor. -/
def writeOneRow : List WCol → List Nat × List WCol
  | [] => ([], [])
  | c :: cs =>
    let n := if c.isList then c.stride * c.listSize else c.stride
    let chunk := (if c.isList then [c.listSize] else []) ++ c.bytes.take n
    let rest := writeOneRow cs
    (chunk ++ rest.1, { c with bytes := c.bytes.drop n } :: rest.2)

/-- The row loop (src/main.cpp:195-207). -/
def writeRows : Nat → List WCol → List Nat
  | 0, _ => []
  | r+1, cols =>
    let step := writeOneRow cols
    step.1 ++ writeRows r step.2

/-- The payload of one element (src/main.cpp:176-208). -/
def elementPayload (props : PropertiesType) : Except String (List Nat) := do
  let cols ← props.mapM (fun p => mkWCol p.2)
  pure (writeRows (elementRows props) cols)

/-- `write_ply` (src/main.cpp:153-212): header text then interleaved binary
payload.  A thrown `std::runtime_error` (unsupported dtype) is `.error`;
the stream-level effect on an unopenable path is modelled by
`write_ply_call` below.  The source interleaves header emission with dtype
lookups, so the surfaced error is the first unsupported dtype in
element-major, column-major order — the same error this staged model
produces, because `get_ply_dtype` and `get_torch_dtype_size` reject exactly
the same dtypes with identical messages and the header pass runs first. -/
def write_ply (bigEndian : Bool) (elements : ElementsType) : Except String PLYFile := do
  let headerBlocks ← elements.mapM (fun e => elementHeaderLines e.1 e.2)
  let payloads ← elements.mapM (fun e => elementPayload e.2)
  pure ⟨["ply"] :: formatLine bigEndian :: (headerBlocks.flatten ++ [["end_header"]]),
        payloads.flatten⟩

/-- Outcome of a `write_ply` call against a filesystem path: the value the
function returns (or the error it throws), and the file left at the path.
The source never tests the `std::ofstream` state (src/main.cpp:154): writes
to a stream that failed to open are silently ignored, and the function still
runs to `return true`, so `openOk` influences only what lands on disk.  (On
a thrown dtype error the partially written header is not modelled.) -/
structure WriteCall where
  returned : Except String Bool
  file : Option PLYFile
deriving Repr

/-- A `write_ply(path, elements)` call; `openOk = false` models a path at
which the destination cannot be created. -/
def write_ply_call (openOk : Bool) (bigEndian : Bool) (elements : ElementsType) : WriteCall :=
  match write_ply bigEndian elements with
  | .ok f => ⟨.ok true, if openOk then some f else none⟩
  | .error e => ⟨.error e, none⟩

/-! ## The header-parser / extraction collaborator

Modelled from the spec: the miniply tokenizer/parser (`miniply.h`, not among
this repository's sources).  Per the spec it supplies, for each element in
file order, its name, row count and ordered property declarations (name,
scalar type, list/scalar flag), the per-row list lengths observed in the
payload for list properties, and raw-byte extraction of scalar and list
columns. -/

/-- miniply's `PLYFileType`: the declared encoding of the file
(`Binary` is binary little-endian; big-endian is its own case). -/
inductive PLYFileType where
  | ASCII | Binary | BinaryBigEndian
deriving DecidableEq, Repr

/-- Modelled from the spec: a property declaration as the collaborator
reports it — `countType = None` marks a scalar property. -/
structure MPProperty where
  name : String
  type : PLYPropertyType
  countType : PLYPropertyType
deriving DecidableEq, Repr

/-- Modelled from the spec: one element declaration. -/
structure MPElement where
  name : String
  count : Nat
  properties : List MPProperty
deriving DecidableEq, Repr

/-- Modelled from the spec: the format-level scalar type names of §6. -/
def parsePLYType (s : String) : Option PLYPropertyType :=
  if s = "char" then some .Char
  else if s = "uchar" then some .UChar
  else if s = "short" then some .Short
  else if s = "ushort" then some .UShort
  else if s = "int" then some .Int
  else if s = "uint" then some .UInt
  else if s = "float" then some .Float
  else if s = "double" then some .Double
  else none

/-- Modelled from the spec: the `format … 1.0` line. -/
def parseFormatLine : List String → Option PLYFileType
  | ["format", "ascii", "1.0"] => some .ASCII
  | ["format", "binary_little_endian", "1.0"] => some .Binary
  | ["format", "binary_big_endian", "1.0"] => some .BinaryBigEndian
  | _ => none

/-- Modelled from the spec: close the element block being accumulated. -/
def flushCur : Option (String × Nat × List MPProperty) → List MPElement
  | none => []
  | some (n, c, ps) => [⟨n, c, ps⟩]

/-- Modelled from the spec: what one header declaration line means. -/
inductive LineAction where
  | endHdr
  | elem (name : String) (cnt : Nat)
  | prop (p : MPProperty)
  | bad
deriving DecidableEq, Repr

/-- Modelled from the spec: recognize one declaration line — `end_header`,
`element <name> <count>`, `property <type> <name>` or
`property list <counttype> <type> <name>`. -/
def classifyLine (line : List String) : LineAction :=
  if line = ["end_header"] then .endHdr
  else
    match line with
    | [w1, a, b] =>
      if w1 = "element" then
        match parseNatToken b with
        | some cnt => .elem a cnt
        | none => .bad
      else if w1 = "property" then
        match parsePLYType a with
        | some tt => .prop ⟨b, tt, .None⟩
        | none => .bad
      else .bad
    | [w1, w2, ct, t, pname] =>
      if w1 = "property" ∧ w2 = "list" then
        match parsePLYType ct, parsePLYType t with
        | some ctt, some tt => .prop ⟨pname, tt, ctt⟩
        | _, _ => .bad
      else .bad
    | _ => .bad

/-- Modelled from the spec: the element/property declaration lines up to
`end_header` (`cur` is the element block being accumulated). -/
def parseBodyGo :
    Option (String × Nat × List MPProperty) → List MPElement → List (List String) →
    Option (List MPElement)
  | _, _, [] => none
  | cur, acc, line :: rest =>
    match classifyLine line with
    | .endHdr => some (acc ++ flushCur cur)
    | .elem n cnt => parseBodyGo (some (n, cnt, [])) (acc ++ flushCur cur) rest
    | .prop p =>
      match cur with
      | some (n, c, ps) => parseBodyGo (some (n, c, ps ++ [p])) acc rest
      | none => none
    | .bad => none

/-- Modelled from the spec: the whole header — the `ply` magic line, the
format line, then the declaration lines. -/
def parseHeader (lines : List (List String)) : Option (PLYFileType × List MPElement) :=
  match lines with
  | ["ply"] :: fmt :: rest =>
    (match parseFormatLine fmt, parseBodyGo none [] rest with
     | some ft, some els => some (ft, els)
     | _, _ => none)
  | _ => none

/-- Modelled from the spec: byte width of each format-level scalar type. -/
def plyTypeSize : PLYPropertyType → Nat
  | .Char => 1 | .UChar => 1 | .Short => 2 | .UShort => 2
  | .Int => 4 | .UInt => 4 | .Float => 4 | .Double => 8 | .None => 0

/-- Modelled from the spec: walk one payload row (§6: properties in
declaration order; a list property is prefixed by its single-byte count).
Returns, per property, its value bytes and its observed row count (empty
for scalars), plus the unconsumed bytes. -/
def loadRow : List MPProperty → List Nat → Option (List (List Nat × List Nat) × List Nat)
  | [], bytes => some ([], bytes)
  | p :: ps, bytes =>
    if p.countType = .None then
      let w := plyTypeSize p.type
      if w ≤ bytes.length then
        match loadRow ps (bytes.drop w) with
        | some (rest, rem) => some ((bytes.take w, []) :: rest, rem)
        | none => none
      else none
    else
      match bytes with
      | [] => none
      | c :: bs =>
        let n := c * plyTypeSize p.type
        if n ≤ bs.length then
          match loadRow ps (bs.drop n) with
          | some (rest, rem) => some ((bs.take n, [c]) :: rest, rem)
          | none => none
        else none

/-- Modelled from the spec: walk `r` payload rows, concatenating each
property's value bytes and observed row counts. -/
def loadRowsAux : Nat → List MPProperty → List Nat → Option (List (List Nat × List Nat) × List Nat)
  | 0, ps, bytes => some (ps.map (fun _ => ([], [])), bytes)
  | r+1, ps, bytes =>
    match loadRow ps bytes with
    | some (row, rem) =>
      (match loadRowsAux r ps rem with
       | some (acc, rem') =>
         some (List.zipWith (fun a b => (a.1 ++ b.1, a.2 ++ b.2)) row acc, rem')
       | none => none)
    | none => none

/-- A property after `load_element`: its declaration, the flattened value
bytes the collaborator can extract, and the per-row list lengths it
observed (`PLYProperty::rowCount`). -/
structure LoadedProp where
  name : String
  type : PLYPropertyType
  countType : PLYPropertyType
  data : List Nat
  rowCounts : List Nat
deriving DecidableEq, Repr

/-- Modelled from the spec: `PLYReader::load_element` — consume one
element's span of the payload.  (The source ignores `load_element`'s status;
on a malformed payload extraction is undefined there, and the model fails.) -/
def loadElement (e : MPElement) (bytes : List Nat) : Option (List LoadedProp × List Nat) :=
  match loadRowsAux e.count e.properties bytes with
  | some (cols, rem) =>
    some (List.zipWith (fun (p : MPProperty) (c : List Nat × List Nat) =>
            ⟨p.name, p.type, p.countType, c.1, c.2⟩) e.properties cols, rem)
  | none => none

/-! ## The generic reader `read_ply` / `read_ply_element` (src/main.cpp:80-135) -/

/-- `std::sort` followed by `std::unique`/`erase` on the observed row
counts (src/main.cpp:94-98).  `std::sort`'s contract is only that the
result is ascending; it is modelled by insertion sort.  `std::unique`
removes adjacent duplicates. -/
def eraseAdjDup : List Nat → List Nat
  | [] => []
  | [a] => [a]
  | a :: b :: rest =>
    if a = b then eraseAdjDup (b :: rest) else a :: eraseAdjDup (b :: rest)

/-- The deduplicated sorted row counts of a list property. -/
def sortUnique (l : List Nat) : List Nat :=
  eraseAdjDup (List.insertionSort (· ≤ ·) l)

/-- The jagged-list error message (src/main.cpp:100): built from
`rowcounts[0]` and `rowcounts[rowcounts.size() - 1]` of the deduplicated
sorted vector. -/
def jaggedMsg (pname : String) (lo hi : Nat) : String :=
  "list property '" ++ pname ++ "' has varying rowcount(from " ++ natToken lo ++
    " to " ++ natToken hi ++ "), which is not supported!"

/-- The per-property body of `read_ply_element`'s loop (src/main.cpp:87-114):
map the format type through the registry, and for a list property enforce a
single distinct row length before allocating `[N, L]`; a scalar property
allocates `[N]`.  (For an empty `rowcounts` vector the source indexes out of
bounds while building the message; the model reads 0 there.) -/
def readOneProp (N : Nat) (lp : LoadedProp) : Except String Tensor :=
  if lp.countType ≠ .None then do
    let dt ← get_torch_dtype lp.type
    let rcs := sortUnique lp.rowCounts
    if rcs.length ≠ 1 then
      .error (jaggedMsg lp.name (rcs.headD 0) (rcs.getLastD 0))
    else
      pure ⟨dt, [N, rcs.headD 0], .cpu, lp.data⟩
  else do
    let dt ← get_torch_dtype lp.type
    pure ⟨dt, [N], .cpu, lp.data⟩

/-- The property loop of `read_ply_element` (src/main.cpp:87-114): process
the properties in declaration order, storing each decoded buffer in
`props_dict` (`props_dict[prop_name] = …`). -/
def rpeFold (N : Nat) (acc : PropertiesType) : List LoadedProp → Except String PropertiesType
  | [] => .ok acc
  | lp :: rest =>
    match readOneProp N lp with
    | .ok t => rpeFold N (umapInsert acc lp.name t) rest
    | .error m => .error m

/-- `read_ply_element` (src/main.cpp:80-117): fold the element's properties
in declaration order into a fresh `props_dict`. -/
def read_ply_element (ename : String) (N : Nat) (loaded : List LoadedProp) :
    Except String (String × PropertiesType) := do
  let pd ← rpeFold N [] loaded
  pure (ename, pd)

/-- The element loop of `read_ply` (src/main.cpp:128-133): load each
element's payload span, decode it, and store it under its name
(`result[el_name] = element`, last write wins). -/
def readElemsGo : List MPElement → List Nat → ElementsType → Except String ElementsType
  | [], _, acc => .ok acc
  | e :: rest, bytes, acc =>
    match loadElement e bytes with
    | some (loaded, rem) =>
      (match read_ply_element e.name e.count loaded with
       | .ok (ename, el) => readElemsGo rest rem (umapInsert acc ename el)
       | .error msg => .error msg)
    | none => .error "load_element failed"

/-- `read_ply` (src/main.cpp:119-135).  `file = none` models an unopenable
path; `reader.valid()` is also false when the header does not parse. -/
def read_ply (path : String) (file : Option PLYFile) : Except String ElementsType :=
  match file with
  | none => .error ("Failed to open specified path: " ++ path)
  | some f =>
    match parseHeader f.headerLines with
    | none => .error ("Failed to open specified path: " ++ path)
    | some (_, elems) => readElemsGo elems f.payload []

/-! ## The dense-float codec (src/main.cpp:215-282) -/

/-- `read_float_ply` (src/main.cpp:215-245): exactly one element, binary
(little-endian) encoding, then a fixed-offset read of the trailing
`N × P × 4` bytes into a fresh `[N, P]` float32 tensor.  When the file is
shorter than that span the `seekg` fails and the tensor keeps uninitialized
memory in the source; the model is exact only when the span exists. -/
def read_float_ply (path : String) (file : Option PLYFile) :
    Except String (Tensor × List String) :=
  match file with
  | none => .error ("Failed to open specified path: " ++ path)
  | some f =>
    match parseHeader f.headerLines with
    | none => .error ("Failed to open specified path: " ++ path)
    | some (ft, elems) =>
      match elems with
      | [e] =>
        if ft ≠ .Binary then .error "Unsupported PLY file encoding"
        else
          let names := e.properties.map (fun p => p.name)
          let ds := e.count * e.properties.length * 4
          let all := fileBytes f
          .ok (⟨.Float32, [e.count, e.properties.length], .cpu,
                all.drop (all.length - ds)⟩, names)
      | _ => .error "Invalid PLY file"

/-- Outcome of a `write_float_ply` call: the returned value or thrown
error, whether a file was created (or truncated) at the path, and that
file's content. -/
structure WFPOutcome where
  result : Except String Unit
  fileCreated : Bool
  file : Option PLYFile
deriving Repr

/-- `write_float_ply` (src/main.cpp:247-282).  The `std::ofstream` is
constructed — creating or truncating the destination — before any of the
four precondition checks; only the open itself is verified first.  On
success the payload is the `4 · N · P` bytes behind `data_ptr()`. -/
def write_float_ply (path : String) (openOk : Bool) (data : Tensor)
    (props : List String) : WFPOutcome :=
  if !openOk then
    ⟨.error ("Could not create file: " ++ path), false, none⟩
  else if data.ndim ≠ 2 then
    ⟨.error "Data tensor must be 2-dimensional", true, some ⟨[], []⟩⟩
  else if data.size1 ≠ props.length then
    ⟨.error "tensor.size(1) != len(props)", true, some ⟨[], []⟩⟩
  else if data.device ≠ .cpu then
    ⟨.error "data must be on CPU", true, some ⟨[], []⟩⟩
  else if data.dtype ≠ .Float32 then
    ⟨.error "data dtype must be float32", true, some ⟨[], []⟩⟩
  else
    ⟨.ok (), true,
     some ⟨["ply"] :: ["format", "binary_little_endian", "1.0"] ::
             ["element", "vertex", natToken data.size0] ::
             (props.map (fun p => ["property", "float", p]) ++ [["end_header"]]),
           data.bytes.take (4 * data.size0 * data.size1)⟩⟩

/-! ## Derived notions used by the statements -/

/-- The Int8/UInt8 collapse of a written-then-reread scalar type: `Int8` is
written as `char`, and `char` reads back as `torch::kByte`; every other
registry dtype survives a round trip unchanged. -/
def collapseDtype (t : TorchScalarType) : TorchScalarType :=
  if t = .Int8 then .UInt8 else t

/-- The format-level type whose name `torch_dtype_to_ply` emits for a
registry dtype (arbitrary `None` outside the registry, never used there). -/
def plyTypeOfDtype : TorchScalarType → PLYPropertyType
  | .UInt8 => .UChar
  | .Int8 => .Char
  | .UInt16 => .UShort
  | .Int16 => .Short
  | .UInt32 => .UInt
  | .Int32 => .Int
  | .Float32 => .Float
  | .Float64 => .Double
  | _ => .None

/-- A token that renders into a header line without disturbing its
tokenization: nonempty, no space, no newline. -/
def benignToken (s : String) : Prop :=
  s ≠ "" ∧ ∀ c ∈ s.data, c.toNat ≠ 32 ∧ c.toNat ≠ 10

instance (s : String) : Decidable (benignToken s) := by
  unfold benignToken; infer_instance

/-- The byte width of a registry dtype (0 outside the registry). -/
def dtypeWidth (t : TorchScalarType) : Nat := (torch_dtype_to_size t).getD 0

/-- A scalar-only document well formed for `write_ply`: keys canonically
ordered on both levels, elements nonempty, benign names, and every column a
width-1 buffer of a registry dtype whose byte block matches the element's
shared row count. -/
def WFScalarDoc (D : ElementsType) : Prop :=
  List.Pairwise (fun a b => strLt a b = true) (umapKeys D) ∧
  ∀ ep ∈ D, benignToken ep.1 ∧ ep.2 ≠ [] ∧
    List.Pairwise (fun a b => strLt a b = true) (umapKeys ep.2) ∧
    ∀ pt ∈ ep.2, benignToken pt.1 ∧
      (pt.2.shape = [elementRows ep.2] ∨ pt.2.shape = [elementRows ep.2, 1]) ∧
      (torch_dtype_to_ply pt.2.dtype).isSome = true ∧
      pt.2.bytes.length = elementRows ep.2 * dtypeWidth pt.2.dtype

instance (D : ElementsType) : Decidable (WFScalarDoc D) := by
  unfold WFScalarDoc; infer_instance

/-- What a scalar-only document looks like after `write_ply` then
`read_ply`: same element and property names in the same canonical order,
every buffer reshaped to `[N]`, its dtype collapsed, its bytes untouched. -/
def roundTripImage (D : ElementsType) : ElementsType :=
  D.map (fun ep =>
    (ep.1, ep.2.map (fun pt =>
      (pt.1, ⟨collapseDtype pt.2.dtype, [elementRows ep.2], .cpu, pt.2.bytes⟩))))

/-- The format-level name `torch_dtype_to_ply` emits for a registry dtype. -/
def fmtOfDtype (d : TorchScalarType) : String := (torch_dtype_to_ply d).getD ""

/-- The declaration the header parser recovers for one written element of a
scalar-only document. -/
def elemDeclOf (ep : String × PropertiesType) : MPElement :=
  ⟨ep.1, elementRows ep.2,
    ep.2.map (fun pt => ⟨pt.1, plyTypeOfDtype pt.2.dtype, .None⟩)⟩

/-- The declarations the header parser recovers from a written scalar-only
document. -/
def elemsOf (D : ElementsType) : List MPElement := D.map elemDeclOf

/-- The column bookkeeping `write_ply` sets up for one tensor. -/
def wcolOf (t : Tensor) : WCol := ⟨t.bytes, dtypeWidth t.dtype, t.isListCol, t.size1 % 256⟩

/-- What `load_element` recovers for one written scalar column. -/
def loadedOf (pt : String × Tensor) : LoadedProp :=
  ⟨pt.1, plyTypeOfDtype pt.2.dtype, .None, pt.2.bytes, []⟩

/-- The header block `write_ply` emits for one scalar-only element. -/
def blockOf (ep : String × PropertiesType) : List (List String) :=
  ["element", ep.1, natToken (elementRows ep.2)]
    :: ep.2.map (fun pt => ["property", fmtOfDtype pt.2.dtype, pt.1])

/-- The payload block `write_ply` emits for one scalar-only element. -/
def payOf (ep : String × PropertiesType) : List Nat :=
  writeRows (elementRows ep.2) (ep.2.map (fun pt => wcolOf pt.2))

/-! ## Concrete documents used by counterexamples and witnesses -/

/-- A one-row float column holding bytes 1,2,3,4. -/
def tenA : Tensor := ⟨.Float32, [1], .cpu, [1, 2, 3, 4]⟩

/-- A one-row float column holding bytes 5,6,7,8. -/
def tenB : Tensor := ⟨.Float32, [1], .cpu, [5, 6, 7, 8]⟩

/-- An element whose columns are inserted in the order `b`, then `a`. -/
def elInsBA : PropertiesType := umapInsert (umapInsert [] "b" tenB) "a" tenA

/-- A document holding `elInsBA` under the element name `vertex`. -/
def docInsBA : ElementsType := umapInsert [] "vertex" elInsBA

/-- A single-element, single-column document with one `uchar` row. -/
def docOneByte : ElementsType := [("vertex", [("c", ⟨.UInt8, [1], .cpu, [7]⟩)])]

/-- A one-element little-endian binary file with one float column. -/
def fDense1 : PLYFile :=
  ⟨[["ply"], ["format", "binary_little_endian", "1.0"], ["element", "v", "1"],
    ["property", "float", "x"], ["end_header"]], [1, 2, 3, 4]⟩

/-- The same file declared as ASCII. -/
def fAscii1 : PLYFile :=
  ⟨[["ply"], ["format", "ascii", "1.0"], ["element", "v", "1"],
    ["property", "float", "x"], ["end_header"]], [1, 2, 3, 4]⟩

/-- A two-element little-endian binary file. -/
def fTwoElems : PLYFile :=
  ⟨[["ply"], ["format", "binary_little_endian", "1.0"], ["element", "v", "1"],
    ["property", "float", "x"], ["element", "w", "1"], ["property", "float", "y"],
    ["end_header"]], [1, 2, 3, 4, 5, 6, 7, 8]⟩

/-! ## Claims -/

/-- C8: the read-direction registry maps both `Char` and `UChar` to the
unsigned byte dtype (a deliberate signedness collapse), rejects the one
format-level type outside the eight-entry set (`None`) with the
unsupported-type error, and is defined on all eight supported types. -/
theorem claim_C8_read_registry_collapse :
    get_torch_dtype .Char = .ok .UInt8 ∧
    get_torch_dtype .UChar = .ok .UInt8 ∧
    PLYPropertyType.Char ≠ PLYPropertyType.UChar ∧
    get_torch_dtype .None = .error "unknown PLYProperty dtype" ∧
    (∀ t : PLYPropertyType, t = .None ∨ ∃ d, get_torch_dtype t = .ok d) := by
  refine ⟨rfl, rfl, by decide, rfl, ?_⟩
  intro t
  cases t <;> first | exact Or.inl rfl | exact Or.inr ⟨_, rfl⟩

/-- C5: `write_float_ply` checks, in order, that the tensor is 2-D, that its
width equals the name count, that it is CPU-resident and that it is Float32;
each violation yields its own distinct message, and when all four hold no
precondition error is raised. -/
theorem claim_C5_dense_write_preconditions :
    (∀ path data props, data.ndim ≠ 2 →
      (write_float_ply path true data props).result =
        .error "Data tensor must be 2-dimensional") ∧
    (∀ path data props, data.ndim = 2 → data.size1 ≠ props.length →
      (write_float_ply path true data props).result =
        .error "tensor.size(1) != len(props)") ∧
    (∀ path data props, data.ndim = 2 → data.size1 = props.length →
      data.device ≠ .cpu →
      (write_float_ply path true data props).result = .error "data must be on CPU") ∧
    (∀ path data props, data.ndim = 2 → data.size1 = props.length →
      data.device = .cpu → data.dtype ≠ .Float32 →
      (write_float_ply path true data props).result =
        .error "data dtype must be float32") ∧
    (∀ path data props, data.ndim = 2 → data.size1 = props.length →
      data.device = .cpu → data.dtype = .Float32 →
      (write_float_ply path true data props).result = .ok ()) ∧
    List.Pairwise (fun a b => a ≠ b)
      ["Data tensor must be 2-dimensional", "tensor.size(1) != len(props)",
       "data must be on CPU", "data dtype must be float32"] := by
  refine ⟨?_, ?_, ?_, ?_, ?_, by decide⟩
  · intro path d p h; simp [write_float_ply, h]
  · intro path d p h1 h2; simp [write_float_ply, h1, h2]
  · intro path d p h1 h2 h3; simp [write_float_ply, h1, h2, h3]
  · intro path d p h1 h2 h3 h4; simp [write_float_ply, h1, h2, h3, h4]
  · intro path d p h1 h2 h3 h4; simp [write_float_ply, h1, h2, h3, h4]

theorem claim_C5_witness :
    (write_float_ply "p" true ⟨.Float32, [4], .cpu, []⟩ ["x"]).result
        = .error "Data tensor must be 2-dimensional" ∧
    (write_float_ply "p" true ⟨.Float32, [4, 2], .cpu, []⟩ ["x"]).result
        = .error "tensor.size(1) != len(props)" ∧
    (write_float_ply "p" true ⟨.Float32, [4, 1], .cuda, []⟩ ["x"]).result
        = .error "data must be on CPU" ∧
    (write_float_ply "p" true ⟨.Float64, [4, 1], .cpu, []⟩ ["x"]).result
        = .error "data dtype must be float32" ∧
    (write_float_ply "p" true ⟨.Float32, [1, 1], .cpu, [0, 0, 0, 0]⟩ ["x"]).result
        = .ok () :=
  ⟨claim_C5_dense_write_preconditions.1 "p" _ _ (by decide),
   claim_C5_dense_write_preconditions.2.1 "p" _ _ (by decide) (by decide),
   claim_C5_dense_write_preconditions.2.2.1 "p" _ _ (by decide) (by decide) (by decide),
   claim_C5_dense_write_preconditions.2.2.2.1 "p" _ _ (by decide) (by decide) (by decide)
     (by decide),
   claim_C5_dense_write_preconditions.2.2.2.2.1 "p" _ _ (by decide) (by decide) (by decide)
     (by decide)⟩

/-- C9: the destination stream is constructed — creating or truncating the
file — before any precondition is checked, so a precondition-violating call
on a creatable path throws but leaves a fresh empty file behind. -/
theorem claim_C9_dense_write_not_atomic : ∀ path data props,
    ¬(data.ndim = 2 ∧ data.size1 = props.length ∧
        data.device = .cpu ∧ data.dtype = .Float32) →
    (∃ msg, (write_float_ply path true data props).result = .error msg) ∧
    (write_float_ply path true data props).fileCreated = true ∧
    (write_float_ply path true data props).file = some ⟨[], []⟩ := by
  intro path d p h
  by_cases h1 : d.ndim = 2
  · by_cases h2 : d.size1 = p.length
    · by_cases h3 : d.device = .cpu
      · by_cases h4 : d.dtype = .Float32
        · exact absurd ⟨h1, h2, h3, h4⟩ h
        · exact ⟨⟨"data dtype must be float32", by simp [write_float_ply, h1, h2, h3, h4]⟩,
            by simp [write_float_ply, h1, h2, h3, h4],
            by simp [write_float_ply, h1, h2, h3, h4]⟩
      · exact ⟨⟨"data must be on CPU", by simp [write_float_ply, h1, h2, h3]⟩,
          by simp [write_float_ply, h1, h2, h3],
          by simp [write_float_ply, h1, h2, h3]⟩
    · exact ⟨⟨"tensor.size(1) != len(props)", by simp [write_float_ply, h1, h2]⟩,
        by simp [write_float_ply, h1, h2], by simp [write_float_ply, h1, h2]⟩
  · exact ⟨⟨"Data tensor must be 2-dimensional", by simp [write_float_ply, h1]⟩,
      by simp [write_float_ply, h1], by simp [write_float_ply, h1]⟩

theorem claim_C9_witness :
    (∃ msg, (write_float_ply "out.ply" true ⟨.Float32, [3], .cpu, []⟩ []).result
        = .error msg) ∧
    (write_float_ply "out.ply" true ⟨.Float32, [3], .cpu, []⟩ []).fileCreated = true ∧
    (write_float_ply "out.ply" true ⟨.Float32, [3], .cpu, []⟩ []).file = some ⟨[], []⟩ :=
  claim_C9_dense_write_not_atomic "out.ply" _ _ (by decide)

/-- C4 (code bug): `write_ply` never inspects the `std::ofstream` state, so
on a path where the destination cannot be created it still returns `true`;
the open status cannot influence the returned value at all, and at the
concrete failing input the call reports success while no file exists. -/
theorem claim_C4_write_ply_ignores_open_failure :
    (∀ be els, (write_ply_call false be els).returned = (write_ply_call true be els).returned) ∧
    (write_ply_call false false docOneByte).returned = .ok true ∧
    (write_ply_call false false docOneByte).file = none := by
  refine ⟨?_, by decide, by decide⟩
  intro be els
  unfold write_ply_call
  cases h : write_ply be els <;> simp

/-- Helper: the shape of a successful `write_ply` run. -/
theorem write_ply_ok_iff (be : Bool) (els : ElementsType) (f : PLYFile) :
    write_ply be els = .ok f ↔ ∃ hb pl,
      els.mapM (fun e => elementHeaderLines e.1 e.2) = .ok hb ∧
      els.mapM (fun e => elementPayload e.2) = .ok pl ∧
      f = ⟨["ply"] :: formatLine be :: (hb.flatten ++ [["end_header"]]), pl.flatten⟩ := by
  unfold write_ply
  cases h1 : els.mapM (fun e => elementHeaderLines e.1 e.2) <;>
    cases h2 : els.mapM (fun e => elementPayload e.2) <;>
      simp [Bind.bind, Except.bind, Except.pure, pure, eq_comm]

/-- C7: the generic writer's format line names the probed host byte order,
while the dense writer's format line is the little-endian one on every
successful call, independently of any byte-order probe (it takes none). -/
theorem claim_C7_format_line_endianness :
    (∀ els f, write_ply true els = .ok f →
      f.headerLines[1]? = some ["format", "binary_big_endian", "1.0"]) ∧
    (∀ els f, write_ply false els = .ok f →
      f.headerLines[1]? = some ["format", "binary_little_endian", "1.0"]) ∧
    renderLine ["format", "binary_big_endian", "1.0"] = "format binary_big_endian 1.0" ∧
    renderLine ["format", "binary_little_endian", "1.0"] = "format binary_little_endian 1.0" ∧
    (∀ path data props f, (write_float_ply path true data props).result = .ok () →
      (write_float_ply path true data props).file = some f →
      f.headerLines[1]? = some ["format", "binary_little_endian", "1.0"]) := by
  refine ⟨?_, ?_, rfl, rfl, ?_⟩
  · intro els f h
    obtain ⟨hb, pl, -, -, rfl⟩ := (write_ply_ok_iff true els f).mp h
    simp [formatLine]
  · intro els f h
    obtain ⟨hb, pl, -, -, rfl⟩ := (write_ply_ok_iff false els f).mp h
    simp [formatLine]
  · intro path d p f hres hfile
    by_cases h1 : d.ndim = 2
    · by_cases h2 : d.size1 = p.length
      · by_cases h3 : d.device = Device.cpu
        · by_cases h4 : d.dtype = TorchScalarType.Float32
          · simp [write_float_ply, h1, h2, h3, h4] at hfile
            subst hfile
            simp
          · simp [write_float_ply, h1, h2, h3, h4] at hres
        · simp [write_float_ply, h1, h2, h3] at hres
      · simp [write_float_ply, h1, h2] at hres
    · simp [write_float_ply, h1] at hres

theorem claim_C7_witness :
    (PLYFile.mk [["ply"], ["format", "binary_big_endian", "1.0"],
        ["element", "vertex", "1"], ["property", "uchar", "c"], ["end_header"]]
        [7]).headerLines[1]? = some ["format", "binary_big_endian", "1.0"] ∧
    (PLYFile.mk [["ply"], ["format", "binary_little_endian", "1.0"],
        ["element", "vertex", "1"], ["property", "uchar", "c"], ["end_header"]]
        [7]).headerLines[1]? = some ["format", "binary_little_endian", "1.0"] ∧
    (PLYFile.mk [["ply"], ["format", "binary_little_endian", "1.0"],
        ["element", "vertex", "1"], ["property", "float", "x"], ["end_header"]]
        [9, 9, 9, 9]).headerLines[1]? = some ["format", "binary_little_endian", "1.0"] :=
  ⟨claim_C7_format_line_endianness.1 docOneByte _ (by decide),
   claim_C7_format_line_endianness.2.1 docOneByte _ (by decide),
   claim_C7_format_line_endianness.2.2.2.2 "p" ⟨.Float32, [1, 1], .cpu, [9, 9, 9, 9]⟩ ["x"] _
     (by decide) (by decide)⟩

/-- C6: on a parsable file, `read_float_ply` errors unless the file has
exactly one element and little-endian binary encoding; when both hold it
returns the element's property names in header order and a `[N, P]` float32
buffer holding the file's trailing `N·P·4` bytes (which have that exact
length whenever the file is at least that large). -/
theorem claim_C6_dense_read : ∀ path f ft elems,
    parseHeader f.headerLines = some (ft, elems) →
    ((elems.length ≠ 1 → read_float_ply path (some f) = .error "Invalid PLY file") ∧
     (∀ e, elems = [e] → ft ≠ .Binary →
        read_float_ply path (some f) = .error "Unsupported PLY file encoding") ∧
     (∀ e, elems = [e] → ft = .Binary →
        read_float_ply path (some f) =
          .ok (⟨.Float32, [e.count, e.properties.length], .cpu,
                (fileBytes f).drop
                  ((fileBytes f).length - e.count * e.properties.length * 4)⟩,
               e.properties.map (fun p => p.name)) ∧
        (e.count * e.properties.length * 4 ≤ (fileBytes f).length →
          ((fileBytes f).drop
              ((fileBytes f).length - e.count * e.properties.length * 4)).length
            = e.count * e.properties.length * 4))) := by
  intro path f ft elems hp
  refine ⟨?_, ?_, ?_⟩
  · intro hlen
    simp only [read_float_ply, hp]
    match elems, hlen with
    | [], _ => rfl
    | [e], h => exact absurd rfl h
    | e1 :: e2 :: rest, _ => rfl
  · rintro e rfl hft
    simp only [read_float_ply, hp]
    simp [hft]
  · rintro e rfl hft
    subst hft
    constructor
    · simp only [read_float_ply, hp]
      simp
    · intro hle
      rw [List.length_drop]
      omega

theorem claim_C6_witness :
    read_float_ply "p" (some fDense1) =
      .ok (⟨.Float32, [1, 1], .cpu, [1, 2, 3, 4]⟩, ["x"]) ∧
    read_float_ply "p" (some fAscii1) = .error "Unsupported PLY file encoding" ∧
    read_float_ply "p" (some fTwoElems) = .error "Invalid PLY file" := by
  refine ⟨?_, ?_, ?_⟩
  · have h := ((claim_C6_dense_read "p" fDense1 .Binary
      [⟨"v", 1, [⟨"x", .Float, .None⟩]⟩] (by decide)).2.2
      ⟨"v", 1, [⟨"x", .Float, .None⟩]⟩ rfl rfl).1
    rw [h]
    decide
  · exact (claim_C6_dense_read "p" fAscii1 .ASCII
      [⟨"v", 1, [⟨"x", .Float, .None⟩]⟩] (by decide)).2.1
      ⟨"v", 1, [⟨"x", .Float, .None⟩]⟩ rfl (by decide)
  · exact (claim_C6_dense_read "p" fTwoElems .Binary
      [⟨"v", 1, [⟨"x", .Float, .None⟩]⟩, ⟨"w", 1, [⟨"y", .Float, .None⟩]⟩]
      (by decide)).1 (by decide)

/-- C3 counterexample: in the document whose element received its columns
in insertion order `b` then `a`, the written header carries
`property float a` before `property float b` — not the insertion order the
claim asserts — because `PropertiesType` is an unordered map that keeps no
insertion order: the writer emits whatever iteration order the container
produces (here the model's canonical order, which at this input coincides
with the order observed under the prevailing libstdc++ build). -/
theorem claim_C3_counterexample :
    (write_ply false docInsBA).map (fun f => (f.headerLines[3]?, f.headerLines[4]?))
      = .ok (some ["property", "float", "a"], some ["property", "float", "b"]) ∧
    (some ["property", "float", "a"], some ["property", "float", "b"])
      ≠ ((some ["property", "float", "b"], some ["property", "float", "a"])
          : Option (List String) × Option (List String)) := by
  exact ⟨by decide, by decide⟩

/-- `eraseAdjDup` only drops elements. -/
theorem eraseAdjDup_sublist : ∀ l : List Nat, List.Sublist (eraseAdjDup l) l
  | [] => by simp [eraseAdjDup]
  | [a] => by simp [eraseAdjDup]
  | a :: b :: rest => by
    unfold eraseAdjDup
    by_cases h : a = b
    · simp only [h, if_pos rfl]
      exact (eraseAdjDup_sublist (b :: rest)).cons b
    · simp only [if_neg h]
      exact (eraseAdjDup_sublist (b :: rest)).cons₂ a

/-- `eraseAdjDup` keeps every value present. -/
theorem mem_eraseAdjDup : ∀ (l : List Nat) (a : Nat), a ∈ eraseAdjDup l ↔ a ∈ l
  | [], a => by simp [eraseAdjDup]
  | [b], a => by simp [eraseAdjDup]
  | b :: c :: rest, a => by
    by_cases h : b = c
    · subst h
      rw [show eraseAdjDup (b :: b :: rest) = eraseAdjDup (b :: rest) from by
        simp [eraseAdjDup]]
      rw [mem_eraseAdjDup (b :: rest) a]
      simp only [List.mem_cons]
      tauto
    · rw [show eraseAdjDup (b :: c :: rest) = b :: eraseAdjDup (c :: rest) from by
        simp [eraseAdjDup, h]]
      simp only [List.mem_cons, mem_eraseAdjDup (c :: rest) a]

/-- On a sorted list, adjacent deduplication leaves no duplicates at all. -/
theorem nodup_eraseAdjDup_of_sorted :
    ∀ l : List Nat, l.Sorted (· ≤ ·) → (eraseAdjDup l).Nodup
  | [], _ => by simp [eraseAdjDup]
  | [a], _ => by simp [eraseAdjDup]
  | a :: b :: rest, hs => by
    have hs' : (b :: rest).Sorted (· ≤ ·) := hs.of_cons
    by_cases h : a = b
    · rw [show eraseAdjDup (a :: b :: rest) = eraseAdjDup (b :: rest) from by
        simp [eraseAdjDup, h]]
      exact nodup_eraseAdjDup_of_sorted (b :: rest) hs'
    · rw [show eraseAdjDup (a :: b :: rest) = a :: eraseAdjDup (b :: rest) from by
        simp [eraseAdjDup, h]]
      refine List.nodup_cons.mpr ⟨?_, nodup_eraseAdjDup_of_sorted (b :: rest) hs'⟩
      intro hmem
      have hmem' : a ∈ b :: rest := (mem_eraseAdjDup _ _).mp hmem
      have hle : a ≤ b := (List.sorted_cons.mp hs).1 b (by simp)
      have hge : b ≤ a := by
        rcases List.mem_cons.mp hmem' with h' | h'
        · exact absurd h' h
        · exact (List.sorted_cons.mp hs').1 a h'
      exact h (le_antisymm hle hge)
/-- The deduplicated sorted row counts: sorted. -/
theorem sortUnique_sorted (l : List Nat) : (sortUnique l).Sorted (· ≤ ·) :=
  (List.sorted_insertionSort (· ≤ ·) l).sublist (eraseAdjDup_sublist _)

/-- The deduplicated sorted row counts: same value set. -/
theorem mem_sortUnique (l : List Nat) (a : Nat) : a ∈ sortUnique l ↔ a ∈ l := by
  unfold sortUnique
  rw [mem_eraseAdjDup]
  exact (List.perm_insertionSort (· ≤ ·) l).mem_iff

/-- The deduplicated sorted row counts: duplicate-free. -/
theorem sortUnique_nodup (l : List Nat) : (sortUnique l).Nodup :=
  nodup_eraseAdjDup_of_sorted _ (List.sorted_insertionSort (· ≤ ·) l)

/-- A list holding two distinct values has at least two entries. -/
theorem two_mem_le_length {m : List Nat} {a b : Nat}
    (ha : a ∈ m) (hb : b ∈ m) (hne : a ≠ b) : 2 ≤ m.length := by
  match m with
  | [] => simp at ha
  | [x] =>
    rw [List.mem_singleton] at ha hb
    exact absurd (ha.trans hb.symm) hne
  | x :: y :: t => simp

/-- In a sorted nonempty list the head is a member and a lower bound. -/
theorem sorted_headD_bounds {m : List Nat} (hs : m.Sorted (· ≤ ·)) (hne : m ≠ []) :
    m.headD 0 ∈ m ∧ ∀ a ∈ m, m.headD 0 ≤ a := by
  match m with
  | [] => exact absurd rfl hne
  | x :: t =>
    refine ⟨by simp, ?_⟩
    intro a ha
    rcases List.mem_cons.mp ha with h | h
    · simp [h]
    · simpa using (List.sorted_cons.mp hs).1 a h

/-- In a sorted nonempty list the last entry is a member and an upper
bound, whatever the fallback. -/
theorem sorted_getLastD_bounds :
    ∀ (m : List Nat), m.Sorted (· ≤ ·) → m ≠ [] →
      ∀ d, m.getLastD d ∈ m ∧ ∀ a ∈ m, a ≤ m.getLastD d
  | [], _, hne, _ => absurd rfl hne
  | [x], _, _, d => by simp
  | x :: y :: t, hs, _, d => by
    have ih := sorted_getLastD_bounds (y :: t) hs.of_cons (by simp) x
    have hstep : (x :: y :: t).getLastD d = (y :: t).getLastD x := rfl
    rw [hstep]
    refine ⟨List.mem_cons_of_mem x ih.1, ?_⟩
    intro a ha
    rcases List.mem_cons.mp ha with h | h
    · subst h
      exact le_trans ((List.sorted_cons.mp hs).1 ((y :: t).getLastD a) ih.1) le_rfl
    · exact ih.2 a h

/-- A nonempty list with no two distinct values deduplicates to a single
length. -/
theorem sortUnique_of_uniform {l : List Nat} (hne : l ≠ [])
    (hsame : ¬ ∃ a ∈ l, ∃ b ∈ l, a ≠ b) : ∃ L, sortUnique l = [L] := by
  match hu : sortUnique l with
  | [] =>
    obtain ⟨a, ha⟩ := List.exists_mem_of_ne_nil l hne
    have := (mem_sortUnique l a).mpr ha
    rw [hu] at this
    simp at this
  | [L] => exact ⟨L, rfl⟩
  | x :: y :: t =>
    have hnd := sortUnique_nodup l
    rw [hu] at hnd
    have hxy : x ≠ y := by
      intro h
      subst h
      simp at hnd
    have hx : x ∈ l := (mem_sortUnique l x).mp (by rw [hu]; simp)
    have hy : y ∈ l := (mem_sortUnique l y).mp (by rw [hu]; simp)
    exact absurd ⟨x, hx, y, hy, hxy⟩ hsame

/-- With two distinct observed lengths, `readOneProp` on a list property
fails with the jagged message built from the minimum and maximum. -/
theorem readOneProp_jagged {N : Nat} {lp : LoadedProp} {d : TorchScalarType}
    (hlist : lp.countType ≠ .None) (hd : get_torch_dtype lp.type = .ok d)
    {a b : Nat} (ha : a ∈ lp.rowCounts) (hb : b ∈ lp.rowCounts) (hne : a ≠ b) :
    ∃ lo hi, lo ∈ lp.rowCounts ∧ hi ∈ lp.rowCounts ∧ lo ≠ hi ∧
      (∀ c ∈ lp.rowCounts, lo ≤ c ∧ c ≤ hi) ∧
      readOneProp N lp = .error (jaggedMsg lp.name lo hi) := by
  have ha' := (mem_sortUnique lp.rowCounts a).mpr ha
  have hb' := (mem_sortUnique lp.rowCounts b).mpr hb
  have hlen2 : 2 ≤ (sortUnique lp.rowCounts).length := two_mem_le_length ha' hb' hne
  have hne' : sortUnique lp.rowCounts ≠ [] := by
    intro h; rw [h] at hlen2; simp at hlen2
  have hsrt := sortUnique_sorted lp.rowCounts
  obtain ⟨hmemlo, hlo⟩ := sorted_headD_bounds hsrt hne'
  obtain ⟨hmemhi, hhi⟩ := sorted_getLastD_bounds _ hsrt hne' 0
  refine ⟨(sortUnique lp.rowCounts).headD 0, (sortUnique lp.rowCounts).getLastD 0,
    (mem_sortUnique _ _).mp hmemlo, (mem_sortUnique _ _).mp hmemhi, ?_, ?_, ?_⟩
  · intro h
    have h2a := hlo a ha'
    have h2b := hlo b hb'
    have h3a := hhi a ha'
    have h3b := hhi b hb'
    omega
  · intro c hc
    have hc' := (mem_sortUnique lp.rowCounts c).mpr hc
    exact ⟨hlo c hc', hhi c hc'⟩
  · unfold readOneProp
    simp only [hlist, if_pos, hd, ne_eq, not_false_iff]
    have hl1 : (sortUnique lp.rowCounts).length ≠ 1 := by omega
    simp [Bind.bind, Except.bind, hl1]

/-- With a single deduplicated length `L`, `readOneProp` allocates the
`[N, L]` buffer holding the extracted flattened payload. -/
theorem readOneProp_uniform {N : Nat} {lp : LoadedProp} {d : TorchScalarType} {L : Nat}
    (hlist : lp.countType ≠ .None) (hd : get_torch_dtype lp.type = .ok d)
    (hu : sortUnique lp.rowCounts = [L]) :
    readOneProp N lp = .ok ⟨d, [N, L], .cpu, lp.data⟩ := by
  unfold readOneProp
  simp [hlist, hd, hu, Bind.bind, Except.bind, Pure.pure, Except.pure]

/-- `readOneProp` on a scalar property: a `[N]` buffer with the column's
extracted bytes. -/
theorem readOneProp_scalar {N : Nat} {lp : LoadedProp} {d : TorchScalarType}
    (hsc : lp.countType = .None) (hd : get_torch_dtype lp.type = .ok d) :
    readOneProp N lp = .ok ⟨d, [N], .cpu, lp.data⟩ := by
  unfold readOneProp
  simp [hsc, hd, Bind.bind, Except.bind, Pure.pure, Except.pure]

/-- The key order is irreflexive. -/
theorem strLtChars_irrefl : ∀ l : List Char, strLtChars l l = false
  | [] => rfl
  | a :: as => by simp [strLtChars, strLtChars_irrefl as]

/-- The key order is irreflexive. -/
theorem strLt_irrefl (s : String) : strLt s s = false := strLtChars_irrefl s.data

/-- Lookup after inserting the same key. -/
theorem umapFind_insert_self {α : Type} (m : UMap α) (k : String) (v : α) :
    umapFind (umapInsert m k v) k = some v := by
  induction m with
  | nil => simp [umapInsert, umapFind]
  | cons p rest ih =>
    unfold umapInsert
    by_cases h1 : strLt k p.1
    · simp [h1, umapFind]
    · by_cases h2 : k = p.1
      · subst h2
        simp [umapFind, strLt_irrefl]
      · simp [h1, h2, umapFind, ih]

/-- Lookup after inserting a different key. -/
theorem umapFind_insert_ne {α : Type} (m : UMap α) (k k' : String) (v : α)
    (hne : k' ≠ k) : umapFind (umapInsert m k v) k' = umapFind m k' := by
  induction m with
  | nil => simp [umapInsert, umapFind, hne]
  | cons p rest ih =>
    unfold umapInsert
    by_cases h1 : strLt k p.1
    · simp [h1, umapFind, hne]
    · by_cases h2 : k = p.1
      · subst h2
        simp [h1, umapFind, hne]
      · by_cases h3 : k' = p.1
        · simp [h1, h2, umapFind, h3]
        · simp [h1, h2, umapFind, h3, ih]

/-- A key not named by any remaining property keeps its binding across the
rest of the property loop. -/
theorem rpeFold_find_untouched {N : Nat} :
    ∀ (loaded : List LoadedProp) (acc pd : PropertiesType) (k : String),
      rpeFold N acc loaded = .ok pd →
      k ∉ loaded.map (fun lp => lp.name) →
      umapFind pd k = umapFind acc k := by
  intro loaded
  induction loaded with
  | nil =>
    intro acc pd k h hk
    unfold rpeFold at h
    cases h
    rfl
  | cons lp rest ih =>
    intro acc pd k h hk
    unfold rpeFold at h
    simp only [List.map_cons, List.mem_cons] at hk
    push_neg at hk
    cases hstep : readOneProp N lp with
    | ok t =>
      rw [hstep] at h
      rw [ih _ _ _ h hk.2]
      exact umapFind_insert_ne _ _ _ _ hk.1
    | error m => rw [hstep] at h; cases h

/-- When every property decodes, the loop succeeds and each distinctly
named property is retrievable as its decoded buffer. -/
theorem rpeFold_ok {N : Nat} :
    ∀ (loaded : List LoadedProp) (acc : PropertiesType),
      (∀ lp ∈ loaded, ∃ t, readOneProp N lp = .ok t) →
      List.Nodup (loaded.map (fun lp => lp.name)) →
      ∃ pd, rpeFold N acc loaded = .ok pd ∧
        ∀ lp ∈ loaded, ∃ t, readOneProp N lp = .ok t ∧ umapFind pd lp.name = some t := by
  intro loaded
  induction loaded with
  | nil =>
    intro acc _ _
    exact ⟨acc, rfl, by simp⟩
  | cons lp rest ih =>
    intro acc hok hnd
    obtain ⟨t0, ht0⟩ := hok lp (by simp)
    simp only [List.map_cons, List.nodup_cons] at hnd
    obtain ⟨pd, hpd, hfind⟩ := ih (umapInsert acc lp.name t0)
      (fun x hx => hok x (by simp [hx])) hnd.2
    refine ⟨pd, ?_, ?_⟩
    · unfold rpeFold
      rw [ht0]
      exact hpd
    · intro x hx
      rcases List.mem_cons.mp hx with h | h
      · subst h
        refine ⟨t0, ht0, ?_⟩
        rw [rpeFold_find_untouched rest _ _ _ hpd hnd.1]
        exact umapFind_insert_self _ _ _
      · exact hfind x h

/-- An undecodable property surfaces its error from the loop, whatever came
before it. -/
theorem rpeFold_first_error {N : Nat} :
    ∀ (loaded : List LoadedProp) (acc : PropertiesType) (lp : LoadedProp) (m : String),
      lp ∈ loaded →
      readOneProp N lp = .error m →
      (∀ x ∈ loaded, ∀ t, readOneProp N x = .ok t → x ≠ lp) →
      ∃ lp' ∈ loaded, ∃ m', readOneProp N lp' = .error m' ∧
        rpeFold N acc loaded = .error m' := by
  intro loaded
  induction loaded with
  | nil => intro _ _ _ h; simp at h
  | cons x rest ih =>
    intro acc lp m hmem herr _
    cases hstep : readOneProp N x with
    | error mx =>
      refine ⟨x, by simp, mx, hstep, ?_⟩
      unfold rpeFold
      rw [hstep]
    | ok t =>
      have hx : lp ∈ rest := by
        rcases List.mem_cons.mp hmem with h | h
        · subst h; rw [hstep] at herr; cases herr
        · exact h
      obtain ⟨lp', hlp', m', hm', hfold⟩ :=
        ih (umapInsert acc x.name t) lp m hx herr
          (fun y hy ty hty => by intro hEq; subst hEq; rw [hty] at herr; cases herr)
      refine ⟨lp', by simp [hlp'], m', hm', ?_⟩
      unfold rpeFold
      rw [hstep]
      exact hfold

/-- Zip two property-wise facts into one. -/
theorem forall2_zipWith {α β γ δ : Type} {P : α → β → Prop} {Q : α → γ → Prop}
    {S : α → δ → Prop} {f : β → γ → δ}
    (hf : ∀ a b c, P a b → Q a c → S a (f b c)) :
    ∀ (l : List α) (lb : List β) (lc : List γ),
      List.Forall₂ P l lb → List.Forall₂ Q l lc →
      List.Forall₂ S l (List.zipWith f lb lc) := by
  intro l
  induction l with
  | nil =>
    intro lb lc hP hQ
    cases hP; cases hQ
    simp
  | cons a t ih =>
    intro lb lc hP hQ
    cases hP with
    | cons hPab hPt =>
      cases hQ with
      | cons hQac hQt =>
        exact List.Forall₂.cons (hf _ _ _ hPab hQac) (ih _ _ hPt hQt)

/-- Every entry of a zip of two related lists comes from a related pair. -/
theorem mem_zipWith_of_forall2 {α β γ : Type} {R : α → β → Prop} (f : α → β → γ) :
    ∀ (l : List α) (lb : List β), List.Forall₂ R l lb →
      ∀ c ∈ List.zipWith f l lb, ∃ a b, R a b ∧ c = f a b := by
  intro l
  induction l with
  | nil =>
    intro lb h c hc
    cases h
    simp at hc
  | cons a t ih =>
    intro lb h c hc
    cases h with
    | cons hab ht =>
      rcases List.mem_cons.mp hc with h1 | h1
      · exact ⟨a, _, hab, h1⟩
      · exact ih _ ht c h1

/-- What one payload row contributes to each property: `w` value bytes and
no observed count for a scalar, `cnt·w` value bytes and the observed count
`cnt` for a list. -/
theorem loadRow_forall2 :
    ∀ (props : List MPProperty) (bytes : List Nat) (row : List (List Nat × List Nat))
      (rem : List Nat),
      loadRow props bytes = some (row, rem) →
      List.Forall₂ (fun (p : MPProperty) (c : List Nat × List Nat) =>
        (p.countType = .None → c.1.length = plyTypeSize p.type ∧ c.2 = []) ∧
        (p.countType ≠ .None →
          ∃ cnt, c.2 = [cnt] ∧ c.1.length = cnt * plyTypeSize p.type)) props row := by
  intro props
  induction props with
  | nil =>
    intro bytes row rem h
    unfold loadRow at h
    cases h
    simp
  | cons p ps ih =>
    intro bytes row rem h
    unfold loadRow at h
    by_cases hsc : p.countType = .None
    · rw [if_pos hsc] at h
      by_cases hw : plyTypeSize p.type ≤ bytes.length
      · rw [if_pos hw] at h
        cases hrec : loadRow ps (bytes.drop (plyTypeSize p.type)) with
        | some pr =>
          rw [hrec] at h
          cases h
          refine List.Forall₂.cons ⟨fun _ => ⟨?_, rfl⟩, fun hn => absurd hsc hn⟩ (ih _ _ _ hrec)
          simp [List.length_take]
          omega
        | none => rw [hrec] at h; cases h
      · rw [if_neg hw] at h; cases h
    · rw [if_neg hsc] at h
      cases bytes with
      | nil => cases h
      | cons c bs =>
        dsimp only at h
        by_cases hn : c * plyTypeSize p.type ≤ bs.length
        · rw [if_pos hn] at h
          cases hrec : loadRow ps (bs.drop (c * plyTypeSize p.type)) with
          | some pr =>
            rw [hrec] at h
            cases h
            refine List.Forall₂.cons
              ⟨fun hx => absurd hx hsc, fun _ => ⟨c, rfl, ?_⟩⟩ (ih _ _ _ hrec)
            simp [List.length_take]
            omega
          | none => rw [hrec] at h; cases h
        · rw [if_neg hn] at h; cases h

/-- Accumulated over `r` rows: a scalar property observes no counts; a list
property observes one count per row, and its extracted bytes are exactly the
sum of count·width over its rows. -/
theorem loadRowsAux_forall2 :
    ∀ (r : Nat) (props : List MPProperty) (bytes : List Nat)
      (cols : List (List Nat × List Nat)) (rem : List Nat),
      loadRowsAux r props bytes = some (cols, rem) →
      List.Forall₂ (fun (p : MPProperty) (c : List Nat × List Nat) =>
        (p.countType = .None → c.2 = []) ∧
        (p.countType ≠ .None → c.2.length = r ∧
          c.1.length = (c.2.map (fun k => k * plyTypeSize p.type)).sum)) props cols := by
  intro r
  induction r with
  | zero =>
    intro props bytes cols rem h
    unfold loadRowsAux at h
    cases h
    induction props with
    | nil => simp
    | cons p ps ihp => exact List.Forall₂.cons (by simp) ihp
  | succ n ih =>
    intro props bytes cols rem h
    unfold loadRowsAux at h
    cases hrow : loadRow props bytes with
    | some rowrem =>
      obtain ⟨row0, rem0⟩ := rowrem
      rw [hrow] at h
      dsimp only at h
      cases hrec : loadRowsAux n props rem0 with
      | some colsrem =>
        obtain ⟨cols0, rem1⟩ := colsrem
        rw [hrec] at h
        dsimp only at h
        cases h
        refine forall2_zipWith ?_ props row0 cols0
          (loadRow_forall2 props bytes row0 rem0 hrow)
          (ih _ _ _ _ hrec)
        rintro p a b ⟨ha1, ha2⟩ ⟨hb1, hb2⟩
        constructor
        · intro hsc
          simp [(ha1 hsc).2, hb1 hsc]
        · intro hls
          obtain ⟨cnt, hcnt, hlen⟩ := ha2 hls
          obtain ⟨hblen, hbsum⟩ := hb2 hls
          constructor
          · simp [hcnt, hblen]
          · simp [hcnt, hlen, hbsum]
      | none => rw [hrec] at h; cases h
    | none => rw [hrow] at h; cases h

/-- A constant list of counts sums to `length · (L·w)`. -/
theorem sum_map_mul_of_all_eq :
    ∀ (rc : List Nat) (L w : Nat), (∀ k ∈ rc, k = L) →
      (rc.map (fun k => k * w)).sum = rc.length * (L * w) := by
  intro rc L w
  induction rc with
  | nil => simp
  | cons k t ih =>
    intro h
    have hk : k = L := h k (by simp)
    simp only [List.map_cons, List.sum_cons, List.length_cons, hk,
      ih (fun x hx => h x (by simp [hx]))]
    ring

/-- If some list property observed two distinct lengths (and every dtype is
mapped, every list property observed at least one length), the property
loop fails with the jagged message of such a property, reporting its
minimum and maximum observed lengths. -/
theorem rpeFold_jagged {N : Nat} :
    ∀ (loaded : List LoadedProp) (acc : PropertiesType),
      (∀ lp ∈ loaded, ∃ d, get_torch_dtype lp.type = .ok d) →
      (∀ lp ∈ loaded, lp.countType ≠ .None → lp.rowCounts ≠ []) →
      (∃ lp ∈ loaded, lp.countType ≠ .None ∧
        ∃ a ∈ lp.rowCounts, ∃ b ∈ lp.rowCounts, a ≠ b) →
      ∃ lp ∈ loaded, lp.countType ≠ .None ∧
        ∃ lo hi, lo ∈ lp.rowCounts ∧ hi ∈ lp.rowCounts ∧ lo ≠ hi ∧
          (∀ c ∈ lp.rowCounts, lo ≤ c ∧ c ≤ hi) ∧
          rpeFold N acc loaded = .error (jaggedMsg lp.name lo hi) := by
  intro loaded
  induction loaded with
  | nil =>
    rintro acc _ _ ⟨lp, hmem, -⟩
    simp at hmem
  | cons x rest ih =>
    intro acc hdt hne hex
    obtain ⟨dx, hdx⟩ := hdt x (by simp)
    by_cases hjx : x.countType ≠ .None ∧ ∃ a ∈ x.rowCounts, ∃ b ∈ x.rowCounts, a ≠ b
    · obtain ⟨hxl, a, ha, b, hb, hab⟩ := hjx
      obtain ⟨lo, hi, hlo, hhi, hlohi, hbnd, herr⟩ :=
        readOneProp_jagged (N := N) hxl hdx ha hb hab
      refine ⟨x, by simp, hxl, lo, hi, hlo, hhi, hlohi, hbnd, ?_⟩
      unfold rpeFold
      rw [herr]
    · have hxok : ∃ t, readOneProp N x = .ok t := by
        by_cases hxl : x.countType = .None
        · exact ⟨_, readOneProp_scalar hxl hdx⟩
        · push_neg at hjx
          obtain ⟨L, hL⟩ := sortUnique_of_uniform (hne x (by simp) hxl)
            (by
              intro hc
              exact absurd hc (by simpa using hjx hxl))
          exact ⟨_, readOneProp_uniform hxl hdx hL⟩
      obtain ⟨t, ht⟩ := hxok
      obtain ⟨lp, hmem, hrest⟩ := hex
      have hlp : lp ∈ rest := by
        rcases List.mem_cons.mp hmem with h | h
        · subst h; exact absurd hrest hjx
        · exact h
      obtain ⟨lp', hmem', hres⟩ := ih (umapInsert acc x.name t)
        (fun y hy => hdt y (by simp [hy]))
        (fun y hy => hne y (by simp [hy]))
        ⟨lp, hlp, hrest⟩
      obtain ⟨h1, lo, hi, hmlo, hmhi, hlh, hbnd2, hfold⟩ := hres
      refine ⟨lp', by simp [hmem'], h1, lo, hi, hmlo, hmhi, hlh, hbnd2, ?_⟩
      unfold rpeFold
      rw [ht]
      exact hfold

/-- C2: if any list property of an element observed two distinct per-row
lengths, `read_ply_element` fails with the jagged-list error reporting that
property's minimum and maximum observed lengths and yields no buffers at
all; a list property whose lengths deduplicate to a single `L` is instead
decoded into an `[N, L]` buffer holding its flattened extracted payload —
`N · L` elements, i.e. `N·(L·width)` bytes, as the loader guarantees —
and is retrievable under its name when the whole element decodes. -/
theorem claim_C2_jagged_list_detection :
    (∀ ename N loaded,
      (∀ lp ∈ loaded, ∃ d, get_torch_dtype lp.type = .ok d) →
      (∀ lp ∈ loaded, lp.countType ≠ .None → lp.rowCounts ≠ []) →
      (∃ lp ∈ loaded, lp.countType ≠ .None ∧
        ∃ a ∈ lp.rowCounts, ∃ b ∈ lp.rowCounts, a ≠ b) →
      ∃ lp ∈ loaded, lp.countType ≠ .None ∧
        ∃ lo hi, lo ∈ lp.rowCounts ∧ hi ∈ lp.rowCounts ∧ lo ≠ hi ∧
          (∀ c ∈ lp.rowCounts, lo ≤ c ∧ c ≤ hi) ∧
          read_ply_element ename N loaded = .error (jaggedMsg lp.name lo hi)) ∧
    (∀ (N : Nat) lp d L, lp.countType ≠ .None → get_torch_dtype lp.type = .ok d →
      sortUnique lp.rowCounts = [L] →
      readOneProp N lp = .ok ⟨d, [N, L], .cpu, lp.data⟩) ∧
    (∀ ename N loaded,
      (∀ lp ∈ loaded, ∃ d, get_torch_dtype lp.type = .ok d) →
      (∀ lp ∈ loaded, lp.countType ≠ .None → ∃ L, sortUnique lp.rowCounts = [L]) →
      List.Nodup (loaded.map (fun lp => lp.name)) →
      ∃ pd, read_ply_element ename N loaded = .ok (ename, pd) ∧
        ∀ lp ∈ loaded, lp.countType ≠ .None → ∀ d L,
          get_torch_dtype lp.type = .ok d → sortUnique lp.rowCounts = [L] →
          umapFind pd lp.name = some ⟨d, [N, L], .cpu, lp.data⟩) ∧
    (∀ e bytes loaded rem L, loadElement e bytes = some (loaded, rem) →
      ∀ lp ∈ loaded, lp.countType ≠ .None → sortUnique lp.rowCounts = [L] →
        lp.rowCounts.length = e.count ∧
        lp.data.length = e.count * (L * plyTypeSize lp.type)) := by
  refine ⟨?_, ?_, ?_, ?_⟩
  · intro ename N loaded hdt hne hex
    obtain ⟨lp, hmem, hl, lo, hi, hmlo, hmhi, hlh, hbnd, hfold⟩ :=
      rpeFold_jagged loaded [] hdt hne hex
    refine ⟨lp, hmem, hl, lo, hi, hmlo, hmhi, hlh, hbnd, ?_⟩
    unfold read_ply_element
    rw [hfold]
    rfl
  · intro N lp d L hl hd hL
    exact readOneProp_uniform hl hd hL
  · intro ename N loaded hdt hL hnd
    have hok : ∀ lp ∈ loaded, ∃ t, readOneProp N lp = .ok t := by
      intro lp hlp
      obtain ⟨d, hd⟩ := hdt lp hlp
      by_cases hl : lp.countType = .None
      · exact ⟨_, readOneProp_scalar hl hd⟩
      · obtain ⟨L, hLx⟩ := hL lp hlp hl
        exact ⟨_, readOneProp_uniform hl hd hLx⟩
    obtain ⟨pd, hpd, hfind⟩ := rpeFold_ok loaded [] hok hnd
    refine ⟨pd, ?_, ?_⟩
    · unfold read_ply_element
      rw [hpd]
      rfl
    · intro lp hlp hl d L hd hLx
      obtain ⟨t, ht, hf⟩ := hfind lp hlp
      have := readOneProp_uniform (N := N) hl hd hLx
      rw [ht] at this
      cases this
      exact hf
  · intro e bytes loaded rem L h
    unfold loadElement at h
    cases hrec : loadRowsAux e.count e.properties bytes with
    | some colsrem =>
      obtain ⟨cols, rem0⟩ := colsrem
      rw [hrec] at h
      dsimp only at h
      cases h
      intro lp hlp hl hLx
      obtain ⟨p, c, hR, hmk⟩ := mem_zipWith_of_forall2 _ _ _
        (loadRowsAux_forall2 _ _ _ _ _ hrec) lp hlp
      subst hmk
      obtain ⟨hcnt, hsum⟩ := hR.2 hl
      refine ⟨hcnt, ?_⟩
      have hall : ∀ k ∈ c.2, k = L := by
        intro k hk
        have := (mem_sortUnique c.2 k).mpr hk
        rw [hLx] at this
        simpa using this
      rw [hsum, sum_map_mul_of_all_eq c.2 L (plyTypeSize p.type) hall, hcnt]
    | none => rw [hrec] at h; cases h

theorem claim_C2_witness :
    (∃ lp ∈ [(⟨"idx", .Int, .UChar,
        [0,0,0,0, 1,0,0,0, 2,0,0,0, 3,0,0,0, 4,0,0,0], [2, 3]⟩ : LoadedProp)],
      lp.countType ≠ .None ∧
      ∃ lo hi, lo ∈ lp.rowCounts ∧ hi ∈ lp.rowCounts ∧ lo ≠ hi ∧
        (∀ c ∈ lp.rowCounts, lo ≤ c ∧ c ≤ hi) ∧
        read_ply_element "face" 2
          [⟨"idx", .Int, .UChar,
            [0,0,0,0, 1,0,0,0, 2,0,0,0, 3,0,0,0, 4,0,0,0], [2, 3]⟩]
          = .error (jaggedMsg lp.name lo hi)) ∧
    readOneProp 2 ⟨"w", .Float, .UChar, [1,2,3,4, 5,6,7,8], [1, 1]⟩
      = .ok ⟨.Float32, [2, 1], .cpu, [1,2,3,4, 5,6,7,8]⟩ ∧
    (∃ pd, read_ply_element "face" 2
        [⟨"w", .Float, .UChar, [1,2,3,4, 5,6,7,8], [1, 1]⟩] = .ok ("face", pd) ∧
      ∀ lp ∈ [(⟨"w", .Float, .UChar, [1,2,3,4, 5,6,7,8], [1, 1]⟩ : LoadedProp)],
        lp.countType ≠ .None → ∀ d L,
        get_torch_dtype lp.type = .ok d → sortUnique lp.rowCounts = [L] →
        umapFind pd lp.name = some ⟨d, [2, L], .cpu, lp.data⟩) ∧
    ((⟨"w", .Float, .UChar, [1,2,3,4, 5,6,7,8], [1, 1]⟩ : LoadedProp).rowCounts.length
        = (⟨"face", 2, [⟨"w", .Float, .UChar⟩]⟩ : MPElement).count ∧
      (⟨"w", .Float, .UChar, [1,2,3,4, 5,6,7,8], [1, 1]⟩ : LoadedProp).data.length
        = (⟨"face", 2, [⟨"w", .Float, .UChar⟩]⟩ : MPElement).count
            * (1 * plyTypeSize .Float)) := by
  refine ⟨?_, ?_, ?_, ?_⟩
  · exact claim_C2_jagged_list_detection.1 "face" 2 _
      (by
        intro lp hlp
        rw [List.mem_singleton] at hlp
        subst hlp
        exact ⟨.Int32, rfl⟩)
      (by
        intro lp hlp
        rw [List.mem_singleton] at hlp
        subst hlp
        decide)
      ⟨⟨"idx", .Int, .UChar,
          [0,0,0,0, 1,0,0,0, 2,0,0,0, 3,0,0,0, 4,0,0,0], [2, 3]⟩,
        by simp, by decide, 2, by decide, 3, by decide, by decide⟩
  · exact claim_C2_jagged_list_detection.2.1 2 _ .Float32 1 (by decide) rfl (by decide)
  · exact claim_C2_jagged_list_detection.2.2.1 "face" 2
      [⟨"w", .Float, .UChar, [1,2,3,4, 5,6,7,8], [1, 1]⟩]
      (by
        intro lp hlp
        rw [List.mem_singleton] at hlp
        subst hlp
        exact ⟨.Float32, rfl⟩)
      (by
        intro lp hlp
        rw [List.mem_singleton] at hlp
        subst hlp
        intro hl
        exact ⟨1, by decide⟩)
      (by decide)
  · exact claim_C2_jagged_list_detection.2.2.2 ⟨"face", 2, [⟨"w", .Float, .UChar⟩]⟩
      [1, 1, 2, 3, 4, 1, 5, 6, 7, 8]
      [⟨"w", .Float, .UChar, [1,2,3,4, 5,6,7,8], [1, 1]⟩] [] 1 (by decide)
      ⟨"w", .Float, .UChar, [1,2,3,4, 5,6,7,8], [1, 1]⟩ (by simp) (by decide) (by decide)

/-- A single scalar column's payload is its byte block, written row by row. -/
theorem writeRows_single_scalar :
    ∀ (N : Nat) (w ls : Nat) (bytes : List Nat), bytes.length = N * w →
      writeRows N [⟨bytes, w, false, ls⟩] = bytes := by
  intro N
  induction N with
  | zero =>
    intro w ls bytes hlen
    simp at hlen
    subst hlen
    rfl
  | succ n ih =>
    intro w ls bytes hlen
    have hstep : writeRows (n + 1) [⟨bytes, w, false, ls⟩]
        = bytes.take w ++ writeRows n [⟨bytes.drop w, w, false, ls⟩] := by
      show (writeOneRow [⟨bytes, w, false, ls⟩]).1
          ++ writeRows n (writeOneRow [⟨bytes, w, false, ls⟩]).2
        = bytes.take w ++ writeRows n [⟨bytes.drop w, w, false, ls⟩]
      simp [writeOneRow]
    rw [hstep, ih w ls (bytes.drop w) (by rw [List.length_drop, hlen, Nat.succ_mul]; omega)]
    exact List.take_append_drop w bytes

/-- C10: the writer declares a column as a list only when it is
more-than-1-dimensional with second dimension strictly above 1.  A list
property whose single deduplicated length is 1 reads back as an `[N, 1]`
buffer, and an `[N, 1]` buffer is written as a plain scalar property —
its header line carries no `list` and its payload has no per-row count
byte, just the `N·w` value bytes — so list-ness of width-1 columns does
not survive a round trip. -/
theorem claim_C10_width_one_list_collapse :
    (∀ ename N lp d, lp.countType ≠ .None → get_torch_dtype lp.type = .ok d →
      sortUnique lp.rowCounts = [1] →
      read_ply_element ename N [lp] = .ok (ename, [(lp.name, ⟨d, [N, 1], .cpu, lp.data⟩)])) ∧
    (∀ (t : Tensor) (N : Nat), t.shape = [N, 1] → t.isListCol = false) ∧
    (∀ (be : Bool) (ename pname : String) (t : Tensor) (N : Nat) (fmt : String) (w : Nat),
      t.shape = [N, 1] →
      torch_dtype_to_ply t.dtype = some fmt →
      torch_dtype_to_size t.dtype = some w →
      t.bytes.length = N * w →
      write_ply be [(ename, [(pname, t)])] =
        .ok ⟨[["ply"], formatLine be, ["element", ename, natToken N],
              ["property", fmt, pname], ["end_header"]], t.bytes⟩) := by
  refine ⟨?_, ?_, ?_⟩
  · intro ename N lp d hl hd hu
    unfold read_ply_element rpeFold
    rw [readOneProp_uniform hl hd hu]
    rfl
  · intro t N hsh
    unfold Tensor.isListCol Tensor.ndim Tensor.size1
    rw [hsh]
    rfl
  · intro be ename pname t N fmt w hsh hfmt hw hlen
    obtain ⟨td, tsh, tdev, tb⟩ := t
    simp only [Tensor.mk.injEq] at hsh ⊢
    dsimp only at hfmt hw hlen ⊢
    subst hsh
    unfold write_ply
    rw [show List.mapM (fun e => elementHeaderLines e.1 e.2)
        [(ename, [(pname, (⟨td, [N, 1], tdev, tb⟩ : Tensor))])]
        = .ok [[["element", ename, natToken N], ["property", fmt, pname]]] from ?_]
    rw [show List.mapM (fun e => elementPayload e.2)
        [(ename, [(pname, (⟨td, [N, 1], tdev, tb⟩ : Tensor))])] = .ok [tb] from ?_]
    · simp [Bind.bind, Except.bind, Pure.pure, Except.pure]
    · show Except.bind (elementPayload [(pname, (⟨td, [N, 1], tdev, tb⟩ : Tensor))]) _ = _
      unfold elementPayload
      rw [show List.mapM (fun p => mkWCol p.2)
          [(pname, (⟨td, [N, 1], tdev, tb⟩ : Tensor))]
          = .ok [⟨tb, w, false, 1 % 256⟩] from ?_]
      · show Except.bind (Except.ok (writeRows
            (elementRows [(pname, (⟨td, [N, 1], tdev, tb⟩ : Tensor))])
            [⟨tb, w, false, 1 % 256⟩])) _ = _
        rw [show elementRows [(pname, (⟨td, [N, 1], tdev, tb⟩ : Tensor))] = N from rfl]
        rw [writeRows_single_scalar N w (1 % 256) tb hlen]
        rfl
      · show Except.bind (mkWCol (⟨td, [N, 1], tdev, tb⟩ : Tensor)) _ = _
        unfold mkWCol get_torch_dtype_size
        rw [hw]
        show Except.bind (Except.ok [(⟨tb, w,
            Tensor.isListCol ⟨td, [N, 1], tdev, tb⟩, Tensor.size1 ⟨td, [N, 1], tdev, tb⟩ % 256⟩
            : WCol)]) _ = _
        rfl
    · show Except.bind (elementHeaderLines ename [(pname, (⟨td, [N, 1], tdev, tb⟩ : Tensor))]) _ = _
      unfold elementHeaderLines
      rw [show List.mapM (fun p => propHeaderLine p.1 p.2)
          [(pname, (⟨td, [N, 1], tdev, tb⟩ : Tensor))]
          = .ok [["property", fmt, pname]] from ?_]
      · rfl
      · show Except.bind (propHeaderLine pname (⟨td, [N, 1], tdev, tb⟩ : Tensor)) _ = _
        unfold propHeaderLine get_ply_dtype
        rw [hfmt]
        rfl

theorem claim_C10_witness :
    read_ply_element "face" 2 [⟨"w", .Float, .UChar, [1,2,3,4, 5,6,7,8], [1, 1]⟩]
      = .ok ("face", [("w", ⟨.Float32, [2, 1], .cpu, [1,2,3,4, 5,6,7,8]⟩)]) ∧
    (⟨.Float32, [2, 1], .cpu, [1,2,3,4, 5,6,7,8]⟩ : Tensor).isListCol = false ∧
    write_ply false [("face", [("w", ⟨.Float32, [2, 1], .cpu, [1,2,3,4, 5,6,7,8]⟩)])]
      = .ok ⟨[["ply"], formatLine false, ["element", "face", natToken 2],
              ["property", "float", "w"], ["end_header"]],
             [1,2,3,4, 5,6,7,8]⟩ :=
  ⟨claim_C10_width_one_list_collapse.1 "face" 2 _ .Float32 (by decide) rfl (by decide),
   claim_C10_width_one_list_collapse.2.1 _ 2 rfl,
   claim_C10_width_one_list_collapse.2.2 false "face" "w" _ 2 "float" 4 rfl rfl rfl rfl⟩

/-! ## Decimal round trip -/

/-- `natDigitsF` ignores its fuel once it covers the argument. -/
theorem natDigitsF_congr :
    ∀ (fuel1 fuel2 n : Nat), n ≤ fuel1 → n ≤ fuel2 →
      natDigitsF fuel1 n = natDigitsF fuel2 n := by
  intro fuel1
  induction fuel1 with
  | zero =>
    intro fuel2 n h1 _
    interval_cases n
    cases fuel2 <;> rfl
  | succ f1 ih =>
    intro fuel2 n h1 h2
    cases n with
    | zero => cases fuel2 <;> rfl
    | succ m =>
      cases fuel2 with
      | zero => omega
      | succ f2 =>
        show ((m + 1) % 10) :: natDigitsF f1 ((m + 1) / 10)
            = ((m + 1) % 10) :: natDigitsF f2 ((m + 1) / 10)
        have hd : (m + 1) / 10 ≤ m := by
          have hdlt : (m + 1) / 10 < m + 1 := Nat.div_lt_self (Nat.succ_pos m) (by omega)
          omega
        exact congrArg _ (ih f2 ((m + 1) / 10)
          (le_trans hd (Nat.le_of_succ_le_succ h1))
          (le_trans hd (Nat.le_of_succ_le_succ h2)))

/-- Unfolding equation for `natToRevDigits` on a positive argument. -/
theorem natToRevDigits_succ (m : Nat) :
    natToRevDigits (m + 1) = ((m + 1) % 10) :: natToRevDigits ((m + 1) / 10) := by
  show natDigitsF (m + 1) (m + 1) = ((m + 1) % 10) :: natToRevDigits ((m + 1) / 10)
  have hd : (m + 1) / 10 ≤ m := by
    have hdlt : (m + 1) / 10 < m + 1 := Nat.div_lt_self (Nat.succ_pos m) (by omega)
    omega
  show ((m + 1) % 10) :: natDigitsF m ((m + 1) / 10)
      = ((m + 1) % 10) :: natToRevDigits ((m + 1) / 10)
  rw [natDigitsF_congr m ((m + 1) / 10) ((m + 1) / 10) hd le_rfl]
  rfl

/-- Every decimal digit is below 10. -/
theorem natToRevDigits_lt :
    ∀ n, ∀ d ∈ natToRevDigits n, d < 10 := by
  intro n
  induction n using Nat.strong_induction_on with
  | _ n ih =>
    cases n with
    | zero => intro d hd; simp [natToRevDigits, natDigitsF] at hd
    | succ m =>
      intro d hd
      rw [natToRevDigits_succ] at hd
      rcases List.mem_cons.mp hd with h | h
      · subst h; exact Nat.mod_lt _ (by omega)
      · exact ih ((m + 1) / 10) (Nat.div_lt_self (Nat.succ_pos m) (by omega)) d h

/-- The digits of `n`, evaluated most significant first. -/
theorem natToRevDigits_foldl :
    ∀ n acc, (natToRevDigits n).reverse.foldl (fun a d => 10 * a + d) acc
      = acc * 10 ^ (natToRevDigits n).length + n := by
  intro n
  induction n using Nat.strong_induction_on with
  | _ n ih =>
    cases n with
    | zero =>
      intro acc
      simp [natToRevDigits, natDigitsF]
    | succ m =>
      intro acc
      rw [natToRevDigits_succ]
      simp only [List.reverse_cons, List.foldl_append, List.foldl_cons, List.foldl_nil,
        List.length_cons]
      rw [ih ((m + 1) / 10) (Nat.div_lt_self (Nat.succ_pos m) (by omega)) acc]
      have : 10 * (acc * 10 ^ (natToRevDigits ((m + 1) / 10)).length + (m + 1) / 10)
          + (m + 1) % 10
          = acc * 10 ^ ((natToRevDigits ((m + 1) / 10)).length + 1)
            + (10 * ((m + 1) / 10) + (m + 1) % 10) := by
        ring
      rw [this, Nat.div_add_mod]

/-- Parsing one rendered digit. -/
theorem digitVal_digitChar (d : Nat) (h : d < 10) : digitVal (digitChar d) = some d := by
  interval_cases d <;> decide

/-- Parsing a rendered digit string accumulates its decimal value. -/
theorem parseNatGo_digits :
    ∀ (ds : List Nat) (acc : Nat), (∀ d ∈ ds, d < 10) →
      parseNatGo (ds.map digitChar) acc
        = some (ds.foldl (fun a d => 10 * a + d) acc) := by
  intro ds
  induction ds with
  | nil => intro acc _; rfl
  | cons d t ih =>
    intro acc h
    show (match digitVal (digitChar d) with
      | some v => parseNatGo (t.map digitChar) (10 * acc + v)
      | none => none) = _
    rw [digitVal_digitChar d (h d (by simp))]
    dsimp only
    rw [ih (10 * acc + d) (fun x hx => h x (by simp [hx]))]
    rfl

/-- The decimal token of `n` parses back to `n`. -/
theorem parseNatToken_natToken (n : Nat) : parseNatToken (natToken n) = some n := by
  cases n with
  | zero => decide
  | succ m =>
    unfold natToken
    show parseNatToken (String.mk ((natToRevDigits (m + 1)).reverse.map digitChar)) = _
    have hne : (natToRevDigits (m + 1)).reverse.map digitChar ≠ [] := by
      rw [natToRevDigits_succ]
      simp
    obtain ⟨c, cs, hd⟩ : ∃ c cs,
        (natToRevDigits (m + 1)).reverse.map digitChar = c :: cs := by
      cases h : (natToRevDigits (m + 1)).reverse.map digitChar with
      | nil => exact absurd h hne
      | cons c cs => exact ⟨c, cs, rfl⟩
    have hgo : parseNatGo ((natToRevDigits (m + 1)).reverse.map digitChar) 0
        = some (m + 1) := by
      rw [parseNatGo_digits _ 0
        (fun d hdm => natToRevDigits_lt (m + 1) d (List.mem_reverse.mp hdm))]
      rw [natToRevDigits_foldl (m + 1) 0]
      simp
    rw [hd] at hgo ⊢
    exact hgo

/-! ## Canonical-order insertion -/

/-- The key order is asymmetric. -/
theorem strLtChars_asymm : ∀ l1 l2 : List Char,
    strLtChars l1 l2 = true → strLtChars l2 l1 = false
  | [], [], h => by simp [strLtChars] at h
  | [], _ :: _, _ => rfl
  | _ :: _, [], h => by simp [strLtChars] at h
  | a :: as, b :: bs, h => by
    simp only [strLtChars, Bool.or_eq_true, Bool.and_eq_true, decide_eq_true_eq] at h
    simp only [strLtChars, Bool.or_eq_false_iff, Bool.and_eq_false_iff,
      decide_eq_false_iff_not]
    rcases h with h | ⟨hab, hrec⟩
    · have hne : b ≠ a := by
        intro hEq
        subst hEq
        omega
      exact ⟨by omega, Or.inl hne⟩
    · subst hab
      refine ⟨by omega, Or.inr ?_⟩
      exact strLtChars_asymm as bs hrec

/-- The key order is asymmetric. -/
theorem strLt_asymm {a b : String} (h : strLt a b = true) : strLt b a = false :=
  strLtChars_asymm a.data b.data h

/-- Related keys are distinct. -/
theorem strLt_ne {a b : String} (h : strLt a b = true) : a ≠ b := by
  intro hEq
  subst hEq
  rw [strLt_irrefl] at h
  cases h

/-- An insertion above every present key lands at the end. -/
theorem umapInsert_append {α : Type} :
    ∀ (m : UMap α) (k : String) (v : α),
      (∀ p ∈ m, strLt p.1 k = true) → umapInsert m k v = m ++ [(k, v)] := by
  intro m
  induction m with
  | nil => intro k v _; rfl
  | cons p rest ih =>
    intro k v h
    have hp := h p (by simp)
    unfold umapInsert
    rw [if_neg (by rw [strLt_asymm hp]; simp)]
    rw [if_neg (strLt_ne hp).symm]
    rw [ih k v (fun q hq => h q (by simp [hq]))]
    rfl

/-! ## Successful `mapM` runs -/

/-- A pointwise-successful `mapM.loop` collects the mapped values. -/
theorem mapM_loop_ok {α β : Type} (f : α → Except String β) (g : α → β) :
    ∀ (l : List α) (acc : List β), (∀ x ∈ l, f x = .ok (g x)) →
      List.mapM.loop f l acc = .ok (acc.reverse ++ l.map g) := by
  intro l
  induction l with
  | nil =>
    intro acc _
    simp [List.mapM.loop, Pure.pure, Except.pure]
  | cons a t ih =>
    intro acc h
    unfold List.mapM.loop
    rw [h a (by simp)]
    show List.mapM.loop f t (g a :: acc) = _
    rw [ih (g a :: acc) (fun x hx => h x (by simp [hx]))]
    simp

/-- A pointwise-successful `mapM` is the `map` of the success values. -/
theorem mapM_ok {α β : Type} (f : α → Except String β) (g : α → β)
    (l : List α) (h : ∀ x ∈ l, f x = .ok (g x)) :
    l.mapM f = .ok (l.map g) := by
  show List.mapM.loop f l [] = _
  rw [mapM_loop_ok f g l [] h]
  rfl

/-! ## Registry facts for the eight writable dtypes -/

/-- Everything the round trip needs about one registry dtype: its format
name renders and parses back to its format-level type, that type maps back
through the read registry to the collapsed dtype, and the byte widths on
the two sides agree. -/
theorem dtype_facts (d : TorchScalarType) (h : (torch_dtype_to_ply d).isSome = true) :
    get_ply_dtype d = .ok (fmtOfDtype d) ∧
    parsePLYType (fmtOfDtype d) = some (plyTypeOfDtype d) ∧
    get_torch_dtype (plyTypeOfDtype d) = .ok (collapseDtype d) ∧
    plyTypeSize (plyTypeOfDtype d) = dtypeWidth d ∧
    torch_dtype_to_size d = some (dtypeWidth d) := by
  cases d <;> first | decide | exact absurd h (by decide)

/-! ## The written header, built and parsed back -/

/-- A width-1 column is never classified as a list column. -/
theorem isListCol_of_scalar_shape {t : Tensor} {N : Nat}
    (h : t.shape = [N] ∨ t.shape = [N, 1]) : t.isListCol = false := by
  rcases h with h | h <;>
    simp [Tensor.isListCol, Tensor.ndim, Tensor.size1, h]

/-- Column bookkeeping succeeds on a registry dtype. -/
theorem mkWCol_ok {t : Tensor} (h : (torch_dtype_to_ply t.dtype).isSome = true) :
    mkWCol t = .ok (wcolOf t) := by
  obtain ⟨-, -, -, -, hsz⟩ := dtype_facts t.dtype h
  unfold mkWCol get_torch_dtype_size wcolOf
  rw [hsz]
  rfl

/-- The header block of a scalar-only element. -/
theorem elementHeaderLines_scalar (ename : String) (props : PropertiesType)
    (h : ∀ pt ∈ props, (torch_dtype_to_ply pt.2.dtype).isSome = true ∧
      pt.2.isListCol = false) :
    elementHeaderLines ename props = .ok (blockOf (ename, props)) := by
  unfold elementHeaderLines
  rw [mapM_ok (fun p => propHeaderLine p.1 p.2)
      (fun pt => ["property", fmtOfDtype pt.2.dtype, pt.1]) props ?_]
  · rfl
  · intro pt hpt
    obtain ⟨hreg, hsc⟩ := h pt hpt
    obtain ⟨hfmt, -, -, -, -⟩ := dtype_facts pt.2.dtype hreg
    show propHeaderLine pt.1 pt.2 = _
    unfold propHeaderLine
    rw [hfmt]
    simp [Bind.bind, Except.bind, hsc, Pure.pure, Except.pure]

/-- The payload block of a scalar-only element. -/
theorem elementPayload_scalar (props : PropertiesType)
    (h : ∀ pt ∈ props, (torch_dtype_to_ply pt.2.dtype).isSome = true) :
    elementPayload props = .ok (writeRows (elementRows props)
      (props.map (fun pt => wcolOf pt.2))) := by
  unfold elementPayload
  rw [mapM_ok (fun p => mkWCol p.2) (fun pt => wcolOf pt.2) props
    (fun pt hpt => mkWCol_ok (h pt hpt))]
  rfl

/-- `write_ply` on a well-formed scalar document: the exact file. -/
theorem write_ply_scalar (be : Bool) (D : ElementsType) (hWF : WFScalarDoc D) :
    write_ply be D = .ok
      ⟨["ply"] :: formatLine be :: ((D.map blockOf).flatten ++ [["end_header"]]),
       (D.map payOf).flatten⟩ := by
  obtain ⟨-, hels⟩ := hWF
  unfold write_ply
  rw [mapM_ok (fun e => elementHeaderLines e.1 e.2) blockOf D ?_]
  · rw [mapM_ok (fun e => elementPayload e.2) payOf D ?_]
    · rfl
    · intro ep hep
      exact elementPayload_scalar ep.2
        (fun pt hpt => ((hels ep hep).2.2.2 pt hpt).2.2.1)
  · intro ep hep
    have := elementHeaderLines_scalar ep.1 ep.2 (fun pt hpt =>
      ⟨((hels ep hep).2.2.2 pt hpt).2.2.1,
       isListCol_of_scalar_shape ((hels ep hep).2.2.2 pt hpt).2.1⟩)
    exact this

/-- Parsing stops at `end_header`, flushing the current block. -/
theorem parseBodyGo_end (cur : Option (String × Nat × List MPProperty))
    (acc : List MPElement) :
    parseBodyGo cur acc [["end_header"]] = some (acc ++ flushCur cur) := by
  unfold parseBodyGo
  rfl

/-- Parsing one written scalar property line extends the open block. -/
theorem parseBodyGo_prop (n : String) (c : Nat) (ps : List MPProperty)
    (acc : List MPElement) (rest : List (List String)) (fmt pname : String)
    (tt : PLYPropertyType) (hf : parsePLYType fmt = some tt) :
    parseBodyGo (some (n, c, ps)) acc (["property", fmt, pname] :: rest)
      = parseBodyGo (some (n, c, ps ++ [⟨pname, tt, .None⟩])) acc rest := by
  have hcl : classifyLine ["property", fmt, pname] = .prop ⟨pname, tt, .None⟩ := by
    unfold classifyLine
    rw [if_neg (by simp)]
    dsimp only
    rw [if_neg (by decide), if_pos rfl, hf]
  rw [parseBodyGo.eq_def]
  dsimp only
  rw [hcl]

/-- Parsing one written element line opens a new block. -/
theorem parseBodyGo_element (cur : Option (String × Nat × List MPProperty))
    (acc : List MPElement) (ename : String) (N : Nat) (rest : List (List String)) :
    parseBodyGo cur acc (["element", ename, natToken N] :: rest)
      = parseBodyGo (some (ename, N, [])) (acc ++ flushCur cur) rest := by
  have hcl : classifyLine ["element", ename, natToken N] = .elem ename N := by
    unfold classifyLine
    rw [if_neg (by simp)]
    dsimp only
    rw [if_pos rfl, parseNatToken_natToken N]
  rw [parseBodyGo.eq_def]
  dsimp only
  rw [hcl]

/-- Parsing the written property lines of a scalar element extends the open
block by their declarations. -/
theorem parseBodyGo_props :
    ∀ (props : PropertiesType) (n : String) (c : Nat) (ps : List MPProperty)
      (acc : List MPElement) (rest : List (List String)),
      (∀ pt ∈ props, (torch_dtype_to_ply pt.2.dtype).isSome = true) →
      parseBodyGo (some (n, c, ps)) acc
        ((props.map (fun pt => ["property", fmtOfDtype pt.2.dtype, pt.1])) ++ rest)
        = parseBodyGo
            (some (n, c, ps ++ props.map (fun pt => ⟨pt.1, plyTypeOfDtype pt.2.dtype, .None⟩)))
            acc rest := by
  intro props
  induction props with
  | nil => intro n c ps acc rest _; simp
  | cons pt t ih =>
    intro n c ps acc rest h
    obtain ⟨-, hparse, -, -, -⟩ := dtype_facts pt.2.dtype (h pt (by simp))
    simp only [List.map_cons, List.cons_append]
    rw [parseBodyGo_prop n c ps acc _ _ pt.1 (plyTypeOfDtype pt.2.dtype) hparse]
    rw [ih n c (ps ++ [(⟨pt.1, plyTypeOfDtype pt.2.dtype, .None⟩ : MPProperty)]) acc rest
      (fun q hq => h q (by simp [hq]))]
    rw [List.append_assoc]
    rfl

/-- Parsing the written header blocks yields exactly the element
declarations of the document. -/
theorem parseBodyGo_blocks :
    ∀ (D : ElementsType) (cur : Option (String × Nat × List MPProperty))
      (acc : List MPElement),
      (∀ ep ∈ D, ∀ pt ∈ ep.2, (torch_dtype_to_ply pt.2.dtype).isSome = true) →
      parseBodyGo cur acc ((D.map blockOf).flatten ++ [["end_header"]])
        = some ((acc ++ flushCur cur) ++ elemsOf D) := by
  intro D
  induction D with
  | nil =>
    intro cur acc _
    simp only [List.map_nil, List.flatten_nil, List.nil_append]
    rw [parseBodyGo_end]
    simp [elemsOf]
  | cons ep rest ih =>
    intro cur acc h
    simp only [List.map_cons, List.flatten_cons, blockOf, List.cons_append,
      List.append_assoc]
    rw [parseBodyGo_element cur acc ep.1 (elementRows ep.2) _]
    rw [parseBodyGo_props ep.2 ep.1 (elementRows ep.2) [] (acc ++ flushCur cur) _
      (h ep (by simp))]
    simp only [List.nil_append]
    rw [ih (some (ep.1, elementRows ep.2,
        ep.2.map (fun pt => ⟨pt.1, plyTypeOfDtype pt.2.dtype, .None⟩)))
      (acc ++ flushCur cur) (fun q hq pt hpt => h q (by simp [hq]) pt hpt)]
    simp [flushCur, elemsOf, elemDeclOf]

/-- The full header of a written scalar document parses back to its element
declarations, under the probed byte order's format type. -/
theorem parseHeader_written (be : Bool) (D : ElementsType)
    (h : ∀ ep ∈ D, ∀ pt ∈ ep.2, (torch_dtype_to_ply pt.2.dtype).isSome = true) :
    parseHeader (["ply"] :: formatLine be :: ((D.map blockOf).flatten ++ [["end_header"]]))
      = some ((if be then PLYFileType.BinaryBigEndian else PLYFileType.Binary), elemsOf D) := by
  have hfmt : parseFormatLine (formatLine be)
      = some (if be then PLYFileType.BinaryBigEndian else PLYFileType.Binary) := by
    cases be <;> rfl
  show (match parseFormatLine (formatLine be),
      parseBodyGo none [] ((D.map blockOf).flatten ++ [["end_header"]]) with
    | some ft, some els => some (ft, els)
    | _, _ => none) = _
  rw [hfmt, parseBodyGo_blocks D none [] h]
  rfl

/-! ## The written payload, loaded back -/

/-- A map-image fact for `Forall₂`. -/
theorem forall2_of_maps {α β γ : Type} {R : β → γ → Prop} (f : α → β) (g : α → γ) :
    ∀ l : List α, (∀ x ∈ l, R (f x) (g x)) → List.Forall₂ R (l.map f) (l.map g) := by
  intro l
  induction l with
  | nil => intro _; simp
  | cons a t ih =>
    intro h
    exact List.Forall₂.cons (h a (by simp)) (ih (fun x hx => h x (by simp [hx])))

/-- `Forall₂` survives a right map that preserves the relation. -/
theorem forall2_map_right {α β : Type} {R : α → β → Prop} (f : β → β)
    (hf : ∀ a b, R a b → R a (f b)) :
    ∀ (l : List α) (m : List β), List.Forall₂ R l m → List.Forall₂ R l (m.map f) := by
  intro l
  induction l with
  | nil => intro m h; cases h; simp
  | cons a t ih =>
    intro m h
    cases h with
    | cons hab ht => exact List.Forall₂.cons (hf _ _ hab) (ih _ ht)

/-- Zipping two maps of the same list is a map. -/
theorem zipWith_map_same {α β γ δ : Type} (f : β → γ → δ) (g : α → β) (h : α → γ) :
    ∀ l : List α, List.zipWith f (l.map g) (l.map h) = l.map (fun x => f (g x) (h x)) := by
  intro l
  induction l with
  | nil => rfl
  | cons a t ih => simp [ih]

/-- One written row of scalar columns: the concatenated per-column slices,
with every cursor advanced. -/
theorem writeOneRow_scalar :
    ∀ cols : List WCol, (∀ c ∈ cols, c.isList = false) →
      writeOneRow cols = ((cols.map (fun c => c.bytes.take c.stride)).flatten,
        cols.map (fun c => { c with bytes := c.bytes.drop c.stride })) := by
  intro cols
  induction cols with
  | nil => intro _; rfl
  | cons c cs ih =>
    intro h
    have hc := h c (by simp)
    unfold writeOneRow
    rw [ih (fun x hx => h x (by simp [hx]))]
    simp [hc]

/-- The spec-modelled row loader undoes one written row of scalar columns. -/
theorem loadRow_chunks :
    ∀ (decls : List MPProperty) (cols : List WCol) (rest : List Nat),
      List.Forall₂ (fun (p : MPProperty) (c : WCol) =>
        p.countType = .None ∧ plyTypeSize p.type = c.stride) decls cols →
      (∀ c ∈ cols, c.stride ≤ c.bytes.length) →
      loadRow decls ((cols.map (fun c => c.bytes.take c.stride)).flatten ++ rest)
        = some (cols.map (fun c => (c.bytes.take c.stride, [])), rest) := by
  intro decls
  induction decls with
  | nil =>
    intro cols rest hR _
    cases hR
    rfl
  | cons p ds ih =>
    intro cols rest hR hlen
    cases hR with
    | cons hpc ht =>
      rename_i c cs
      obtain ⟨hsc, hw⟩ := hpc
      have hcl := hlen c (by simp)
      have htk : (c.bytes.take c.stride).length = c.stride := by
        rw [List.length_take]
        omega
      unfold loadRow
      rw [if_pos hsc]
      simp only [List.map_cons, List.flatten_cons, List.append_assoc]
      rw [if_pos (by rw [hw, List.length_append, htk]; omega)]
      rw [hw]
      rw [List.take_left' htk, List.drop_left' htk]
      rw [ih cs rest ht (fun x hx => hlen x (by simp [hx]))]

/-- For `Forall₂`-aligned empty columns, the 0-row loader result matches. -/
theorem map_nil_cols {R : MPProperty → WCol → Prop} :
    ∀ (decls : List MPProperty) (cols : List WCol), List.Forall₂ R decls cols →
      (∀ c ∈ cols, c.bytes = []) →
      decls.map (fun _ => (([] : List Nat), ([] : List Nat)))
        = cols.map (fun c => (c.bytes, ([] : List Nat))) := by
  intro decls
  induction decls with
  | nil => intro cols h _; cases h; rfl
  | cons p ds ih =>
    intro cols h hb
    cases h with
    | cons hpc ht =>
      rename_i c cs
      simp only [List.map_cons]
      rw [hb c (by simp), ih cs ht (fun x hx => hb x (by simp [hx]))]

/-- Rejoining the first row's slices with the remaining rows restores each
column's byte block. -/
theorem zip_take_drop :
    ∀ cols : List WCol,
      List.zipWith (fun a b => (a.1 ++ b.1, a.2 ++ b.2))
        (cols.map (fun c => (c.bytes.take c.stride, ([] : List Nat))))
        ((cols.map (fun c => { c with bytes := c.bytes.drop c.stride })).map
          (fun c => (c.bytes, ([] : List Nat))))
      = cols.map (fun c => (c.bytes, ([] : List Nat))) := by
  intro cols
  induction cols with
  | nil => rfl
  | cons c cs ih =>
    simp only [List.map_cons, List.zipWith_cons_cons, ih]
    simp [List.take_append_drop]

/-- The spec-modelled loader undoes `writeRows` on scalar columns, leaving
any trailing bytes untouched. -/
theorem loadRowsAux_writeRows :
    ∀ (N : Nat) (decls : List MPProperty) (cols : List WCol) (rest : List Nat),
      List.Forall₂ (fun (p : MPProperty) (c : WCol) =>
        p.countType = .None ∧ plyTypeSize p.type = c.stride) decls cols →
      (∀ c ∈ cols, c.isList = false) →
      (∀ c ∈ cols, c.bytes.length = N * c.stride) →
      loadRowsAux N decls (writeRows N cols ++ rest)
        = some (cols.map (fun c => (c.bytes, [])), rest) := by
  intro N
  induction N with
  | zero =>
    intro decls cols rest hR _ hlen
    show some (decls.map (fun _ => ([], [])), writeRows 0 cols ++ rest) = _
    rw [show writeRows 0 cols = [] from rfl]
    rw [map_nil_cols decls cols hR
      (fun c hc => by
        have := hlen c hc
        simp at this
        exact this)]
    rfl
  | succ n ih =>
    intro decls cols rest hR hsc hlen
    have hrow := writeOneRow_scalar cols hsc
    show (match loadRow decls (writeRows (n + 1) cols ++ rest) with
      | some (row, rem) =>
        (match loadRowsAux n decls rem with
         | some (acc, rem') =>
           some (List.zipWith
             (fun (a b : List Nat × List Nat) => (a.1 ++ b.1, a.2 ++ b.2)) row acc, rem')
         | none => none)
      | none => none) = _
    rw [show writeRows (n + 1) cols
        = (writeOneRow cols).1 ++ writeRows n (writeOneRow cols).2 from rfl]
    rw [hrow]
    simp only [List.append_assoc]
    rw [loadRow_chunks decls cols _ hR
      (fun c hc => by
        have := hlen c hc
        rw [this, Nat.succ_mul]
        omega)]
    dsimp only
    rw [ih decls (cols.map (fun c => { c with bytes := c.bytes.drop c.stride })) rest
      (forall2_map_right _ (fun p c hpc => ⟨hpc.1, hpc.2⟩) decls cols hR)
      (fun c hc => by
        obtain ⟨c0, hc0, rfl⟩ := List.mem_map.mp hc
        exact hsc c0 hc0)
      (fun c hc => by
        obtain ⟨c0, hc0, rfl⟩ := List.mem_map.mp hc
        have := hlen c0 hc0
        simp only [List.length_drop, this, Nat.succ_mul]
        omega)]
    dsimp only
    rw [zip_take_drop]

/-- `load_element` on a written scalar element recovers each column's exact
byte block (and observes no list lengths), consuming exactly the element's
payload span. -/
theorem loadElement_written (ep : String × PropertiesType) (rest : List Nat)
    (hreg : ∀ pt ∈ ep.2, (torch_dtype_to_ply pt.2.dtype).isSome = true)
    (hsh : ∀ pt ∈ ep.2, pt.2.shape = [elementRows ep.2] ∨ pt.2.shape = [elementRows ep.2, 1])
    (hlen : ∀ pt ∈ ep.2, pt.2.bytes.length = elementRows ep.2 * dtypeWidth pt.2.dtype) :
    loadElement (elemDeclOf ep) (payOf ep ++ rest) = some (ep.2.map loadedOf, rest) := by
  unfold loadElement elemDeclOf payOf
  dsimp only
  rw [loadRowsAux_writeRows (elementRows ep.2)
    (ep.2.map (fun pt => ⟨pt.1, plyTypeOfDtype pt.2.dtype, .None⟩))
    (ep.2.map (fun pt => wcolOf pt.2)) rest
    (forall2_of_maps _ _ ep.2 (fun pt hpt =>
      ⟨rfl, (dtype_facts pt.2.dtype (hreg pt hpt)).2.2.2.1⟩))
    (fun c hc => by
      obtain ⟨pt, hpt, rfl⟩ := List.mem_map.mp hc
      exact isListCol_of_scalar_shape (hsh pt hpt))
    (fun c hc => by
      obtain ⟨pt, hpt, rfl⟩ := List.mem_map.mp hc
      exact hlen pt hpt)]
  dsimp only
  rw [List.map_map, zipWith_map_same]
  rfl

/-- The property loop rebuilds a canonically ordered element verbatim. -/
theorem rpeFold_build {N : Nat} (f : LoadedProp → Tensor) :
    ∀ (loaded : List LoadedProp) (acc : PropertiesType),
      (∀ lp ∈ loaded, readOneProp N lp = .ok (f lp)) →
      (∀ p ∈ acc, ∀ lp ∈ loaded, strLt p.1 lp.name = true) →
      List.Pairwise (fun a b => strLt a b = true) (loaded.map (fun lp => lp.name)) →
      rpeFold N acc loaded = .ok (acc ++ loaded.map (fun lp => (lp.name, f lp))) := by
  intro loaded
  induction loaded with
  | nil => intro acc _ _ _; simp [rpeFold]
  | cons lp rest ih =>
    intro acc hok hacc hpw
    unfold rpeFold
    rw [hok lp (by simp)]
    dsimp only
    rw [umapInsert_append acc lp.name (f lp) (fun p hp => hacc p hp lp (by simp))]
    simp only [List.map_cons, List.pairwise_cons] at hpw
    rw [ih (acc ++ [(lp.name, f lp)])
      (fun x hx => hok x (by simp [hx]))
      (fun p hp q hq => by
        rcases List.mem_append.mp hp with h | h
        · exact hacc p h q (by simp [hq])
        · rw [List.mem_singleton] at h
          subst h
          exact hpw.1 q.name (List.mem_map_of_mem _ hq))
      hpw.2]
    simp

/-- `get_torch_dtype` success exposes the registry entry. -/
theorem ply_to_torch_of_get {t : PLYPropertyType} {d : TorchScalarType}
    (h : get_torch_dtype t = .ok d) : ply_to_torch_dtype t = some d := by
  unfold get_torch_dtype at h
  cases hp : ply_to_torch_dtype t with
  | some r => rw [hp] at h; cases h; rfl
  | none => rw [hp] at h; cases h

/-- `read_ply_element` on a loaded written scalar element: every column
comes back under its name with the collapsed dtype, a `[N]` shape, CPU
residency and its original bytes. -/
theorem read_ply_element_written (ename : String) (props : PropertiesType)
    (hreg : ∀ pt ∈ props, (torch_dtype_to_ply pt.2.dtype).isSome = true)
    (hkeys : List.Pairwise (fun a b => strLt a b = true) (umapKeys props)) :
    read_ply_element ename (elementRows props) (props.map loadedOf)
      = .ok (ename, props.map (fun pt =>
          (pt.1, (⟨collapseDtype pt.2.dtype, [elementRows props], .cpu,
            pt.2.bytes⟩ : Tensor)))) := by
  have hfold := rpeFold_build
    (N := elementRows props)
    (fun lp => (⟨(ply_to_torch_dtype lp.type).getD .UInt8, [elementRows props], .cpu,
      lp.data⟩ : Tensor))
    (props.map loadedOf) []
    (fun lp hlp => by
      obtain ⟨pt, hpt, rfl⟩ := List.mem_map.mp hlp
      obtain ⟨-, -, hget, -, -⟩ := dtype_facts pt.2.dtype (hreg pt hpt)
      rw [readOneProp_scalar rfl hget]
      dsimp only [loadedOf]
      rw [ply_to_torch_of_get hget]
      rfl)
    (by simp)
    (by
      rw [List.map_map]
      exact hkeys)
  unfold read_ply_element
  rw [hfold]
  show Except.ok (ename, _) = _
  rw [List.map_map]
  refine congrArg _ (congrArg _ (List.map_congr_left ?_))
  intro pt hpt
  obtain ⟨-, -, hget, -, -⟩ := dtype_facts pt.2.dtype (hreg pt hpt)
  dsimp only [Function.comp, loadedOf]
  rw [ply_to_torch_of_get hget]
  rfl

/-- The element loop of `read_ply` rebuilds the round-trip image of a
written scalar document. -/
theorem readElemsGo_written :
    ∀ (D : ElementsType) (acc : ElementsType),
      (∀ ep ∈ D,
        List.Pairwise (fun a b => strLt a b = true) (umapKeys ep.2) ∧
        ∀ pt ∈ ep.2, (torch_dtype_to_ply pt.2.dtype).isSome = true ∧
          (pt.2.shape = [elementRows ep.2] ∨ pt.2.shape = [elementRows ep.2, 1]) ∧
          pt.2.bytes.length = elementRows ep.2 * dtypeWidth pt.2.dtype) →
      List.Pairwise (fun a b => strLt a b = true) (umapKeys D) →
      (∀ p ∈ acc, ∀ ep ∈ D, strLt p.1 ep.1 = true) →
      readElemsGo (elemsOf D) ((D.map payOf).flatten) acc
        = .ok (acc ++ roundTripImage D) := by
  intro D
  induction D with
  | nil =>
    intro acc _ _ _
    simp [elemsOf, roundTripImage, readElemsGo]
  | cons ep rest ih =>
    intro acc h hkeys hacc
    show readElemsGo (elemDeclOf ep :: elemsOf rest) (payOf ep ++ (rest.map payOf).flatten) acc
      = _
    unfold readElemsGo
    rw [loadElement_written ep ((rest.map payOf).flatten)
      (fun pt hpt => (((h ep (by simp)).2) pt hpt).1)
      (fun pt hpt => (((h ep (by simp)).2) pt hpt).2.1)
      (fun pt hpt => (((h ep (by simp)).2) pt hpt).2.2)]
    dsimp only
    rw [show (elemDeclOf ep).name = ep.1 from rfl,
      show (elemDeclOf ep).count = elementRows ep.2 from rfl]
    rw [read_ply_element_written ep.1 ep.2
      (fun pt hpt => (((h ep (by simp)).2) pt hpt).1)
      (h ep (by simp)).1]
    dsimp only
    simp only [umapKeys, List.map_cons, List.pairwise_cons] at hkeys
    rw [umapInsert_append acc ep.1 _ (fun p hp => hacc p hp ep (by simp))]
    rw [ih (acc ++ [(ep.1, ep.2.map (fun pt =>
        (pt.1, (⟨collapseDtype pt.2.dtype, [elementRows ep.2], .cpu,
          pt.2.bytes⟩ : Tensor))))])
      (fun q hq => h q (by simp [hq]))
      hkeys.2
      (fun p hp q hq => by
        rcases List.mem_append.mp hp with hmem | hmem
        · exact hacc p hmem q (by simp [hq])
        · rw [List.mem_singleton] at hmem
          subst hmem
          exact hkeys.1 q.1 (List.mem_map_of_mem _ hq))]
    simp [roundTripImage]

/-- C1: for a well-formed scalar-only document, `write_ply` succeeds and
`read_ply` of the written file reproduces the document exactly — same
element names in the same canonical order, same property names in the same
canonical order, same row counts (each buffer reshaped `[N]`), and
byte-identical payload values — except that every dtype is collapsed
through the read registry, sending `Int8` (written as `char`) to the
unsigned byte dtype and fixing every other registry dtype. -/
theorem claim_C1_scalar_round_trip :
    ∀ (be : Bool) (path : String) (D : ElementsType), WFScalarDoc D →
    ∃ f, write_ply be D = .ok f ∧
      read_ply path (some f) = .ok (roundTripImage D) ∧
      umapKeys (roundTripImage D) = umapKeys D ∧
      ∀ ep ∈ D, (ep.1, ep.2.map (fun pt =>
          (pt.1, (⟨collapseDtype pt.2.dtype, [elementRows ep.2], .cpu,
            pt.2.bytes⟩ : Tensor)))) ∈ roundTripImage D := by
  intro be path D hWF
  obtain ⟨hkeys, hels⟩ := hWF
  refine ⟨_, write_ply_scalar be D ⟨hkeys, hels⟩, ?_, ?_, ?_⟩
  · show read_ply path (some ⟨["ply"] :: formatLine be
        :: ((D.map blockOf).flatten ++ [["end_header"]]), (D.map payOf).flatten⟩) = _
    unfold read_ply
    dsimp only
    rw [parseHeader_written be D
      (fun ep hep pt hpt => ((hels ep hep).2.2.2 pt hpt).2.2.1)]
    dsimp only
    rw [readElemsGo_written D []
      (fun ep hep => ⟨(hels ep hep).2.2.1, fun pt hpt =>
        ⟨((hels ep hep).2.2.2 pt hpt).2.2.1,
         ((hels ep hep).2.2.2 pt hpt).2.1,
         ((hels ep hep).2.2.2 pt hpt).2.2.2⟩⟩)
      hkeys
      (by simp)]
    rfl
  · unfold roundTripImage umapKeys
    rw [List.map_map]
    rfl
  · intro ep hep
    exact List.mem_map_of_mem _ hep

theorem claim_C1_witness :
    ∃ f, write_ply false docOneByte = .ok f ∧
      read_ply "out.ply" (some f) = .ok (roundTripImage docOneByte) ∧
      umapKeys (roundTripImage docOneByte) = umapKeys docOneByte ∧
      ∀ ep ∈ docOneByte, (ep.1, ep.2.map (fun pt =>
          (pt.1, (⟨collapseDtype pt.2.dtype, [elementRows ep.2], .cpu,
            pt.2.bytes⟩ : Tensor)))) ∈ roundTripImage docOneByte :=
  claim_C1_scalar_round_trip false "out.ply" docOneByte (by decide)

/-- C3 amended: the writer derives the header property lines and the payload
interleaving from one and the same traversal of each element's column
container — `blockOf` and `payOf` walk the identical column sequence — so
header order and payload order always agree; but that shared sequence is the
unordered container's iteration order, about which the source guarantees
nothing, and in particular not insertion order.  Concretely, for the element
whose columns were inserted `b` then `a`, the written header lines appear
`a` then `b` and each payload row carries the `a` column's bytes before the
`b` column's, matching the hand-computed layout.  (No insertion-order
independence is asserted: the container's order may depend on its insertion
history.) -/
theorem claim_C3_header_payload_same_order :
    write_ply false docInsBA =
      .ok ⟨[["ply"], ["format", "binary_little_endian", "1.0"],
            ["element", "vertex", "1"],
            ["property", "float", "a"], ["property", "float", "b"],
            ["end_header"]],
           [1, 2, 3, 4, 5, 6, 7, 8]⟩ ∧
    (∀ (be : Bool) (els : ElementsType),
      (∀ ep ∈ els, ∀ pt ∈ ep.2,
        (torch_dtype_to_ply pt.2.dtype).isSome = true ∧ pt.2.isListCol = false) →
      write_ply be els = .ok
        ⟨["ply"] :: formatLine be :: ((els.map blockOf).flatten ++ [["end_header"]]),
         (els.map payOf).flatten⟩) := by
  refine ⟨by decide, ?_⟩
  intro be els h
  unfold write_ply
  rw [mapM_ok (fun e => elementHeaderLines e.1 e.2) blockOf els
    (fun ep hep => elementHeaderLines_scalar ep.1 ep.2 (fun pt hpt => h ep hep pt hpt))]
  rw [mapM_ok (fun e => elementPayload e.2) payOf els
    (fun ep hep => elementPayload_scalar ep.2 (fun pt hpt => (h ep hep pt hpt).1))]
  rfl

theorem claim_C3_witness :
    write_ply true docOneByte = .ok
      ⟨[["ply"], ["format", "binary_big_endian", "1.0"], ["element", "vertex", "1"],
        ["property", "uchar", "c"], ["end_header"]], [7]⟩ :=
  claim_C3_header_payload_same_order.2 true docOneByte (by decide)
